import Mathlib

/-! Realm dynamic-table allocator and the barrier-reduction driver.

A shallow embedding of

* `DynamicTableAllocator::new_leaf_node` (`runtime/realm/runtime_impl.h`), and
* `ReductionOpIntAdd`, `child_task` and `top_level_task`
  (`test/realm/barrier_reduce.cc`),

together with the properties of them that the specification states.

Conventions of the embedding.

* Pointers to table elements (`ET *`) are `Option SlotRef`: `none` is the null
  pointer, `some ⟨a, k⟩` is `&(leaf->elems[k])` for the leaf stored at address
  `a`.  The memory holding the leaves is a list, a leaf's address being its
  position; `new` places the fresh leaf behind the existing ones.
* `int` is 32 bits wide, two's complement.  The index `first_index + i` of
  `new_leaf_node` and the operator `ReductionOpIntAdd` add with wrap-around
  (`wrapInt`); `size_t` arithmetic is taken modulo `2^64`.
* An allocator has `LEAF_BITS <= 30`: the array bound `1 << LEAF_BITS` is an
  `int` constant, so no larger value can be instantiated.  The offsets and the
  loop counter of `new_leaf_node` then stay below `2^31`
  (`new_leaf_node_int_range`) and are written without wrap-around, as are the
  `errors` counter and the barrier generations.
* `lock()`/`unlock()` of the free list guard against other threads and leave
  the sequential state untouched; they do not appear in the embedding.
-/

namespace Realm

/-! ## Machine integers -/

/-- The value of a C `int` holding the integer `x` modulo `2^32` (two's complement). -/
def wrapInt (x : Int) : Int := (x + 2147483648) % 4294967296 - 2147483648

/-! ## Data model of the dynamic table -/

/-- Modelled from the spec: the identifier `ID` of `id.h` (not part of the
sources), "decomposable into kind, owner node and index"; the constructor
`ID(type, node, index)` records its three arguments. -/
structure ID where
  type : Nat
  node : Int
  index : Int
deriving DecidableEq, Repr

/-- Address of one element of a leaf: `&(leaf->elems[ofs])` for the leaf at
address `leaf`. -/
structure SlotRef where
  leaf : Nat
  ofs : Int
deriving DecidableEq, Repr

/-- The C++ type `ET *`; `none` is the null pointer. -/
abbrev ETPtr := Option SlotRef

/-- Modelled from the spec: the part of an element type `ET` (`GenEventImpl`,
`BarrierImpl`, ..., declared in headers that are not part of the sources) that
`new_leaf_node` touches: the arguments `(me, owner)` of the last `init` call
(`none` while `init` has not run) and the free-list link `next_free`. -/
structure ET where
  init_args : Option (ID × Int)
  next_free : ETPtr
deriving DecidableEq, Repr

/-- A default-constructed element. -/
def ET.fresh : ET := ⟨none, none⟩

/-- The call `e.init(id, owner)`. -/
def ET.init (e : ET) (id : ID) (owner : Int) : ET :=
  { e with init_args := some (id, owner) }

/-- Modelled from the spec: `DynamicTableNode<ET, SIZE, LT, IT>` of
`dynamic_table.h` (not part of the sources): level, covered index range and
the array `elems[SIZE]`. -/
structure LEAF_TYPE where
  level : Int
  first_index : Int
  last_index : Int
  elems : List ET
deriving DecidableEq, Repr

/-- The constructor call `new LEAF_TYPE(level, first_index, last_index)` for a
node with `size` elements. -/
def LEAF_TYPE.create (size : Nat) (level first_index last_index : Int) : LEAF_TYPE :=
  ⟨level, first_index, last_index, List.replicate size ET.fresh⟩

/-- Modelled from the spec: `DynamicTableFreeList<ALLOCATOR>` of
`dynamic_table.h` (not part of the sources): the head `first_free` of the
list of unused elements. -/
structure FreeList where
  first_free : ETPtr
deriving DecidableEq, Repr

/-- The template parameters of `DynamicTableAllocator<_ET, _INNER_BITS, _LEAF_BITS>`;
of `_ET` only the constant `ET::ID_TYPE` matters here.  The array bound
`1 << LEAF_BITS` of a leaf is an `int` constant, which limits `LEAF_BITS` to 30. -/
structure Allocator where
  ID_TYPE : Nat
  INNER_BITS : Nat
  LEAF_BITS : Nat
  leaf_bits_le : LEAF_BITS ≤ 30

/-- The allocator `EventTableAllocator`; `GenEventImpl::ID_TYPE` is a parameter. -/
def EventTableAllocator (ID_TYPE : Nat) : Allocator := ⟨ID_TYPE, 10, 8, by decide⟩
/-- The allocator `BarrierTableAllocator`; `BarrierImpl::ID_TYPE` is a parameter. -/
def BarrierTableAllocator (ID_TYPE : Nat) : Allocator := ⟨ID_TYPE, 10, 4, by decide⟩
/-- The allocator `ReservationTableAllocator`; `ReservationImpl::ID_TYPE` is a parameter. -/
def ReservationTableAllocator (ID_TYPE : Nat) : Allocator := ⟨ID_TYPE, 10, 8, by decide⟩
/-- The allocator `IndexSpaceTableAllocator`; `IndexSpaceImpl::ID_TYPE` is a parameter. -/
def IndexSpaceTableAllocator (ID_TYPE : Nat) : Allocator := ⟨ID_TYPE, 10, 4, by decide⟩
/-- The allocator `ProcessorGroupTableAllocator`; `ProcessorGroup::ID_TYPE` is a parameter. -/
def ProcessorGroupTableAllocator (ID_TYPE : Nat) : Allocator := ⟨ID_TYPE, 10, 4, by decide⟩

/-- Number of elements of a leaf, the array bound `1 << LEAF_BITS`. -/
def Allocator.leafSize (A : Allocator) : Nat := 1 <<< A.LEAF_BITS

/-! ## Execution of `new_leaf_node` -/

/-- The local state of one activation of `new_leaf_node`: the leaf under
construction and, oldest first, the offset `k` of every subscript expression
`leaf->elems[k]` evaluated so far. -/
structure Frame where
  leaf : LEAF_TYPE
  indexed : List Int
deriving DecidableEq, Repr

/-- Evaluate `leaf->elems[k]` without storing through it (as in `&(leaf->elems[k])`). -/
def Frame.index (s : Frame) (k : Int) : Frame :=
  { s with indexed := s.indexed ++ [k] }

/-- Evaluate `leaf->elems[k]` and replace that element by `f` of it.  An offset
outside the array takes the out-of-bounds branch, which stores nothing. -/
def Frame.update (s : Frame) (k : Int) (f : ET → ET) : Frame :=
  { leaf :=
      if 0 ≤ k then
        match s.leaf.elems[k.toNat]? with
        | some e => { s.leaf with elems := s.leaf.elems.set k.toNat (f e) }
        | none => s.leaf
      else s.leaf,
    indexed := s.indexed ++ [k] }

/-- The loop `for(IT i = first; i <= last; i++) body(i)` run for at most `fuel`
iterations. -/
def forLoopAux {σ : Type} (body : Int → σ → σ) (last : Int) : Nat → Int → σ → σ
  | 0, _, s => s
  | fuel + 1, i, s => if i ≤ last then forLoopAux body last fuel (i + 1) (body i s) else s

/-- The loop `for(IT i = first; i <= last; i++) body(i)`; the iteration bound
`last + 1 - first` is the exact number of iterations the loop makes. -/
def forLoop {σ : Type} (first last : Int) (body : Int → σ → σ) (s : σ) : σ :=
  forLoopAux body last (last + 1 - first).toNat first s

/-- What a call of `new_leaf_node` leaves behind: the memory holding the
leaves, the returned leaf pointer, the free list the argument points to
(`none` for a null argument) and the offsets indexed during the call. -/
structure Outcome where
  heap : List LEAF_TYPE
  leaf : Nat
  free_list : Option FreeList
  indexed : List Int
deriving DecidableEq, Repr

/-- The local `last_ofs = (((IT)1) << LEAF_BITS) - 1`. -/
def Allocator.last_ofs (A : Allocator) : Int := (1 : Int) * 2 ^ A.LEAF_BITS - 1

/-- Body of the first loop: `leaf->elems[i].init(ID(ET::ID_TYPE, owner, first_index + i), owner)`;
the sum `first_index + i` is an `int`. -/
def initBody (A : Allocator) (first_index owner : Int) (i : Int) (s : Frame) : Frame :=
  s.update i (fun e => e.init (ID.mk A.ID_TYPE owner (wrapInt (first_index + i))) owner)

/-- Body of the second loop:
`leaf->elems[i].next_free = (i < last_ofs) ? &(leaf->elems[i+1]) : free_list->first_free`
for the leaf at address `addr`; the right-hand side is evaluated first. -/
def linkBody (A : Allocator) (addr : Nat) (fl : FreeList) (i : Int) (s : Frame) : Frame :=
  if i < A.last_ofs then
    (s.index (i + 1)).update i (fun e => { e with next_free := some ⟨addr, i + 1⟩ })
  else
    s.update i (fun e => { e with next_free := fl.first_free })

/-- The function `DynamicTableAllocator::new_leaf_node(first_index, last_index, owner, free_list)`
run in a memory that holds the leaves `heap`. -/
def new_leaf_node (A : Allocator) (heap : List LEAF_TYPE) (first_index last_index : Int)
    (owner : Int) (free_list : Option FreeList) : Outcome :=
  let addr := heap.length
  let s0 : Frame := ⟨LEAF_TYPE.create A.leafSize 0 first_index last_index, []⟩
  let s1 := forLoop 0 A.last_ofs (initBody A first_index owner) s0
  match free_list with
  | some fl =>
    let s2 := forLoop 0 A.last_ofs (linkBody A addr fl) s1
    let s3 := s2.index (if first_index ≠ 0 then 0 else 1)
    { heap := heap ++ [s3.leaf], leaf := addr,
      free_list := some { fl with first_free := some ⟨addr, if first_index ≠ 0 then 0 else 1⟩ },
      indexed := s3.indexed }
  | none =>
    { heap := heap ++ [s1.leaf], leaf := addr, free_list := none, indexed := s1.indexed }

/-! ## Free lists in memory -/

/-- The element a pointer refers to, if it refers to one. -/
def elemAt (heap : List LEAF_TYPE) (p : SlotRef) : Option ET :=
  if 0 ≤ p.ofs then
    match heap[p.leaf]? with
    | some l => l.elems[p.ofs.toNat]?
    | none => none
  else none

/-- The index an element was initialised with, `ID(me).index`. -/
def slotIndex (heap : List LEAF_TYPE) (p : SlotRef) : Option Int :=
  match elemAt heap p with
  | some e => e.init_args.map (fun a => a.1.index)
  | none => none

/-- The elements met by following `next_free` from `p`, at most `n` of them. -/
def walk (heap : List LEAF_TYPE) : Nat → ETPtr → List SlotRef
  | 0, _ => []
  | _ + 1, none => []
  | n + 1, some a =>
    a :: (match elemAt heap a with
          | some e => walk heap n e.next_free
          | none => [])

/-- Element `a` is reachable from `p` by following `next_free`. -/
def Reachable (heap : List LEAF_TYPE) (p : ETPtr) (a : SlotRef) : Prop :=
  ∃ n, a ∈ walk heap n p

/-- The sequence obtained by following `next_free` from `p` up to the null
pointer is exactly `L`. -/
def freeSeq (heap : List LEAF_TYPE) : ETPtr → List SlotRef → Prop
  | p, [] => p = none
  | p, a :: L =>
    p = some a ∧
      (match elemAt heap a with
       | some e => freeSeq heap e.next_free L
       | none => False)

instance freeSeq.decidable (heap : List LEAF_TYPE) :
    (p : ETPtr) → (L : List SlotRef) → Decidable (freeSeq heap p L)
  | p, [] => by unfold freeSeq; exact inferInstance
  | p, a :: L => by
    unfold freeSeq
    cases h : elemAt heap a with
    | none => exact isFalse (fun hh => hh.2)
    | some e =>
      have := freeSeq.decidable heap e.next_free L
      exact inferInstance

/-- The new leaf's elements at offsets `start, start+1, ..., size-1`. -/
def newSlots (addr : Nat) (start size : Nat) : List SlotRef :=
  (List.range' start (size - start)).map (fun (k : Nat) => (⟨addr, (k : Int)⟩ : SlotRef))

/-! ## Results of the two loops, element by element -/

/-- Element `k` of a leaf after the initialisation loop. -/
def initElem (A : Allocator) (first_index owner : Int) (k : Nat) : ET :=
  ⟨some (ID.mk A.ID_TYPE owner (wrapInt (first_index + k)), owner), none⟩

/-- Element `k` of the leaf at address `addr` after the linking loop. -/
def linkedElem (A : Allocator) (addr : Nat) (fl : FreeList) (first_index owner : Int)
    (k : Nat) : ET :=
  ⟨some (ID.mk A.ID_TYPE owner (wrapInt (first_index + k)), owner),
    if k + 1 < A.leafSize then some ⟨addr, (k : Int) + 1⟩ else fl.first_free⟩

/-- Offsets indexed by the first `m` iterations of the linking loop of a leaf
with `N` elements. -/
def linkTrace (N m : Nat) : List Int :=
  (List.range m).flatMap (fun (i : Nat) => if i + 1 < N then [(i : Int) + 1, (i : Int)] else [(i : Int)])

/-- The head offset chosen by `first_index ? 0 : 1`. -/
def headOfs (first_index : Int) : Nat := if first_index ≠ 0 then 0 else 1

/-- A memory with one leaf of two elements (indices 2 and 3), linked 0 → 1 → null. -/
def sampleHeap : List LEAF_TYPE :=
  [⟨0, 2, 3, [⟨some (⟨0, 0, 2⟩, 0), some ⟨0, 1⟩⟩, ⟨some (⟨0, 0, 3⟩, 0), none⟩]⟩]

/-- The free list of `sampleHeap`: both elements of its leaf. -/
def sampleFreeList : FreeList := ⟨some ⟨0, 0⟩⟩

/-! ## The reduction operator and the driver of `barrier_reduce.cc` -/

/-- The C type `int`: the integers from `-2^31` to `2^31 - 1`. -/
def CInt : Type := { v : Int // -2147483648 ≤ v ∧ v < 2147483648 }

instance : DecidableEq CInt := inferInstanceAs (DecidableEq { v : Int // -2147483648 ≤ v ∧ v < 2147483648 })

/-- Conversion of an integer to `int`, keeping the low 32 bits. -/
def CInt.ofInt (x : Int) : CInt :=
  ⟨wrapInt x, by unfold wrapInt; omega, by unfold wrapInt; omega⟩

/-- The C type `size_t`, 64 bits wide: the value of `x` as a `size_t`. -/
def wrapSize (x : Nat) : Nat := x % 18446744073709551616

/-- Conversion of an `int` to `size_t`. -/
def CInt.toSize (x : CInt) : Nat := (x.val % 18446744073709551616).toNat

namespace ReductionOpIntAdd

/-- The member `typedef int LHS`. -/
abbrev LHS := CInt
/-- The member `typedef int RHS`. -/
abbrev RHS := CInt

/-- The member `apply<EXCL>(lhs, rhs)`: `lhs += rhs`; returns the new `lhs`. -/
def apply (_EXCL : Bool) (lhs : LHS) (rhs : RHS) : LHS := CInt.ofInt (lhs.val + rhs.val)

/-- The member `identity = 0`. -/
def identity : RHS := CInt.ofInt 0

/-- The member `fold<EXCL>(rhs1, rhs2)`: `rhs1 += rhs2`; returns the new `rhs1`. -/
def fold (_EXCL : Bool) (rhs1 rhs2 : RHS) : RHS := CInt.ofInt (rhs1.val + rhs2.val)

end ReductionOpIntAdd

/-- The constant `BARRIER_INITIAL_VALUE = 42`. -/
def BARRIER_INITIAL_VALUE : CInt := CInt.ofInt 42

/-- Modelled from the spec: the handle type `Barrier` (declared in headers that
are not part of the sources), an id together with the generation that selects
the phase. -/
structure Barrier where
  id : Nat
  gen : Nat
deriving DecidableEq, Repr

/-- Modelled from the spec: `Barrier::advance_barrier` (not part of the
sources) "returns the same id with generation incremented". -/
def Barrier.advance_barrier (b : Barrier) : Barrier := { b with gen := b.gen + 1 }

/-- The calls a task makes on its barrier handle, and the comparisons of a
result with the expected value, each with the generation of the handle. -/
inductive Action where
  | arrive (gen : Nat) (count : Nat) (value : CInt)
  | get_result (gen : Nat)
  | wait (gen : Nat)
  | compare (gen : Nat) (result exp_result : CInt)
deriving DecidableEq

/-- What the runtime (not part of the sources) answers to a task: whether the
first `get_result` on a generation finds the result ready, and the result the
task ends up with for that generation. -/
structure BarrierRuntime where
  ready : Nat → Bool
  result : Nat → CInt

/-- The state a task works on: its barrier handle `b`, the global counter
`errors`, and the actions of the task so far, oldest first. -/
structure Task where
  b : Barrier
  errors : Int
  trace : List Action

/-- The loop `for(size_t i = 0; i < n; i++) body(i)`. -/
def forRange {σ : Type} (n : Nat) (body : Nat → σ → σ) (s : σ) : σ :=
  (List.range n).foldl (fun s i => body i s) s

/-- The block shared by both tasks: `get_result`, and when the result is not
ready `wait` followed by a second `get_result` (asserted to succeed). -/
def fetch_result (rt : BarrierRuntime) (s : Task) : Task :=
  if rt.ready s.b.gen then
    { s with trace := s.trace ++ [Action.get_result s.b.gen] }
  else
    { s with trace := s.trace ++
        [Action.get_result s.b.gen, Action.wait s.b.gen, Action.get_result s.b.gen] }

/-- The comparison `if(result == exp_result) ... else errors++` on the
result of the handle's generation. -/
def check_result (rt : BarrierRuntime) (exp_result : CInt) (s : Task) : Task :=
  { s with
    errors := if rt.result s.b.gen = exp_result then s.errors else s.errors + 1,
    trace := s.trace ++ [Action.compare s.b.gen (rt.result s.b.gen) exp_result] }

/-- The arguments `ChildTaskArgs` of a child task. -/
structure ChildTaskArgs where
  num_iters : Nat
  index : Nat
  b : Barrier

/-- The value `int reduce_val = (i+1)*(child_args.index+1)` of `child_task`. -/
def reduce_val (i index : Nat) : CInt :=
  CInt.ofInt (wrapSize (wrapSize (i + 1) * wrapSize (index + 1)))

/-- The value
`int exp_result = BARRIER_INITIAL_VALUE + (i+1)*num_iters*(num_iters + 1) / 2`
of `child_task`, computed in `size_t` and converted to `int`. -/
def child_exp_result (i num_iters : Nat) : CInt :=
  CInt.ofInt (wrapSize (BARRIER_INITIAL_VALUE.toSize +
    wrapSize (wrapSize (wrapSize (i + 1) * num_iters) * wrapSize (num_iters + 1)) / 2))

/-- The value
`int exp_result = BARRIER_INITIAL_VALUE + (i+1)*all_cpus.size()*(all_cpus.size() + 1) / 2`
of `top_level_task`, computed in `size_t` and converted to `int`. -/
def parent_exp_result (i size : Nat) : CInt :=
  CInt.ofInt (wrapSize (BARRIER_INITIAL_VALUE.toSize +
    wrapSize (wrapSize (wrapSize (i + 1) * size) * wrapSize (size + 1)) / 2))

/-- One iteration of the loop of `child_task`; `SHARED_LOWLEVEL` tells whether
the build defines that symbol. -/
def child_body (rt : BarrierRuntime) (SHARED_LOWLEVEL : Bool) (args : ChildTaskArgs)
    (i : Nat) (s : Task) : Task :=
  let s1 : Task := { s with trace := s.trace ++ [Action.arrive s.b.gen 1 (reduce_val i args.index)] }
  let s2 : Task :=
    if i = args.index then
      check_result rt (child_exp_result i args.num_iters) (fetch_result rt s1)
    else s1
  let s3 : Task :=
    if SHARED_LOWLEVEL then { s2 with trace := s2.trace ++ [Action.wait s2.b.gen] } else s2
  { s3 with b := s3.b.advance_barrier }

/-- The task `child_task`, started when the global counter is `errors`. -/
def child_task (rt : BarrierRuntime) (SHARED_LOWLEVEL : Bool) (args : ChildTaskArgs)
    (errors : Int) : Task :=
  forRange args.num_iters (child_body rt SHARED_LOWLEVEL args) ⟨args.b, errors, []⟩

/-- One iteration of the result loop of `top_level_task`. -/
def parent_body (rt : BarrierRuntime) (size : Nat) (i : Nat) (s : Task) : Task :=
  let s1 := check_result rt (parent_exp_result i size) (fetch_result rt s)
  { s1 with b := s1.b.advance_barrier }

/-- How `top_level_task` ends: `exit(code)`, or the request to shut the runtime down. -/
inductive Finish where
  | exit (code : Int)
  | shutdown
deriving DecidableEq, Repr

/-- Modelled from the spec: the exit code of the driver process (the runtime
that ends the process after `shutdown` is not part of the sources): "`0`
success, `1` any arrival/result mismatch detected". -/
def Finish.exit_code : Finish → Int
  | Finish.exit code => code
  | Finish.shutdown => 0

/-- The final check `if(errors > 0) exit(1)` of `top_level_task`, followed by
`Runtime::get_runtime().shutdown()`. -/
def final_check (errors : Int) : Finish :=
  if errors > 0 then Finish.exit 1 else Finish.shutdown

/-- A run of the driver: the counter `errors`, the finished children in the
order of their index, the parent after its result loop, and how the run ends. -/
structure Run where
  children : List Task
  parent : Task
  finish : Finish

/-- The state of the spawning loop of `top_level_task`: the global counter and
the children spawned so far. -/
structure Spawned where
  errors : Int
  children : List Task

/-- One iteration of the spawning loop of `top_level_task`: child `i` gets
`num_iters = size`, `index = i` and the barrier `b`; it is run on the spot and
leaves the counter `errors` to whatever runs next. -/
def spawn_body (rtc : Nat → BarrierRuntime) (SHARED_LOWLEVEL : Bool) (size : Nat) (b : Barrier)
    (i : Nat) (s : Spawned) : Spawned :=
  let c := child_task (rtc i) SHARED_LOWLEVEL ⟨size, i, b⟩ s.errors
  ⟨c.errors, s.children ++ [c]⟩

/-- The task `top_level_task` on `size` CPUs, from the barrier `b` that
`create_barrier(size, REDOP_ADD, &BARRIER_INITIAL_VALUE, ...)` returned, with
`errors = 0` at the start: the children, the result loop of the parent, and
the final check made after all children have finished.  The runtime answers
the parent as `rt` and child `i` as `rtc i`. -/
def top_level_task (rt : BarrierRuntime) (rtc : Nat → BarrierRuntime) (SHARED_LOWLEVEL : Bool)
    (size : Nat) (b : Barrier) : Run :=
  let spawned := forRange size (spawn_body rtc SHARED_LOWLEVEL size b) ⟨0, []⟩
  let parent := forRange size (parent_body rt size) ⟨b, spawned.errors, []⟩
  { children := spawned.children, parent := parent, finish := final_check parent.errors }

/-- The arrivals `(generation, count, value)` among the actions of a task. -/
def arrivals (trace : List Action) : List (Nat × Nat × CInt) :=
  trace.filterMap (fun a => match a with
    | Action.arrive gen count value => some (gen, count, value)
    | _ => none)

/-- The arrival count a generation has received from a list of arrivals. -/
def received (gen : Nat) (arr : List (Nat × Nat × CInt)) : Nat :=
  ((arr.filter (fun a => a.1 = gen)).map (fun a => a.2.1)).sum

/-- The values that a list of arrivals contributes to a generation, in the
order of the list. -/
def arrival_values (gen : Nat) (arr : List (Nat × Nat × CInt)) : List CInt :=
  (arr.filter (fun a => a.1 = gen)).map (fun a => a.2.2)

/-- The generations whose result a task has compared, in the order of the comparisons. -/
def compared (trace : List Action) : List Nat :=
  trace.filterMap (fun a => match a with
    | Action.compare gen _ _ => some gen
    | _ => none)

/-- The generations of the `get_result` calls of a task, in the order of the calls. -/
def fetched (trace : List Action) : List Nat :=
  trace.filterMap (fun a => match a with
    | Action.get_result gen => some gen
    | _ => none)

/-- The generations of the `wait` calls of a task, in the order of the calls. -/
def waited (trace : List Action) : List Nat :=
  trace.filterMap (fun a => match a with
    | Action.wait gen => some gen
    | _ => none)

/-- The value `exp_result` a task has compared the result of a generation
against, for each of its comparisons, in their order. -/
def expected (trace : List Action) : List (Nat × CInt) :=
  trace.filterMap (fun a => match a with
    | Action.compare gen _ exp_result => some (gen, exp_result)
    | _ => none)

/-- The generations a `get_result`/`wait`/`get_result` block asks the runtime
for: once when the result is ready, otherwise a second time after the wait. -/
def fetchGens (rt : BarrierRuntime) (gen : Nat) : List Nat :=
  if rt.ready gen then [gen] else [gen, gen]

/-- The generations a `get_result`/`wait`/`get_result` block waits on. -/
def waitGens (rt : BarrierRuntime) (gen : Nat) : List Nat :=
  if rt.ready gen then [] else [gen]

/-- The comparisons `(result, exp_result)` among the actions of a task. -/
def comparisons (trace : List Action) : List (CInt × CInt) :=
  trace.filterMap (fun a => match a with
    | Action.compare _ result exp_result => some (result, exp_result)
    | _ => none)

/-- All comparisons of a run: those of the children, then those of the parent. -/
def Run.comparisons (r : Run) : List (CInt × CInt) :=
  r.children.flatMap (fun c => Realm.comparisons c.trace) ++ Realm.comparisons r.parent.trace

/-- All arrivals of a run (only children arrive). -/
def Run.arrivals (r : Run) : List (Nat × Nat × CInt) :=
  r.children.flatMap (fun c => Realm.arrivals c.trace) ++ Realm.arrivals r.parent.trace

/-- The value published for a generation: the arrival values folded with
`fold`, starting from `identity`, and applied to the initial value with `apply`. -/
def published (EXCL : Bool) (initial : ReductionOpIntAdd.LHS)
    (values : List ReductionOpIntAdd.RHS) : ReductionOpIntAdd.LHS :=
  ReductionOpIntAdd.apply EXCL initial
    (values.foldl (ReductionOpIntAdd.fold EXCL) ReductionOpIntAdd.identity)

/-- The number of comparisons that found `result != exp_result`. -/
def mismatches (cs : List (CInt × CInt)) : Nat :=
  (cs.filter (fun c => c.1 ≠ c.2)).length

/-- A runtime that finds every result ready and whose result for generation
`g` is the one expected in iteration `g` on `size` CPUs. -/
def sampleRuntime (size : Nat) : BarrierRuntime :=
  ⟨fun _ => true, fun g => parent_exp_result g size⟩

/-- A runtime with the results of `sampleRuntime` that finds no result ready
at the first `get_result`. -/
def slowRuntime (size : Nat) : BarrierRuntime :=
  ⟨fun _ => false, fun g => parent_exp_result g size⟩

/-! ## Theorems: loops -/

theorem forLoopAux_inv {σ : Type} (body : Int → σ → σ) (last : Int) (P : Int → σ → Prop)
    (hstep : ∀ j s, j ≤ last → P j s → P (j + 1) (body j s)) :
    ∀ (fuel : Nat) (i : Int) (s : σ), fuel = (last + 1 - i).toNat → i ≤ last + 1 → P i s →
      P (last + 1) (forLoopAux body last fuel i s) := by
  intro fuel
  induction fuel with
  | zero =>
    intro i s hf hi hP
    have : i = last + 1 := by omega
    subst this
    simpa [forLoopAux] using hP
  | succ n ih =>
    intro i s hf hi hP
    have hle : i ≤ last := by omega
    simp only [forLoopAux, hle, if_true]
    exact ih (i + 1) (body i s) (by omega) (by omega) (hstep i s hle hP)

theorem forLoop_inv {σ : Type} (first last : Int) (body : Int → σ → σ) (P : Int → σ → Prop)
    (s : σ) (hle : first ≤ last + 1) (h0 : P first s)
    (hstep : ∀ j s, first ≤ j → j ≤ last → P j s → P (j + 1) (body j s)) :
    P (last + 1) (forLoop first last body s) := by
  have h := forLoopAux_inv body last (fun j s => first ≤ j ∧ P j s)
    (fun j s hj hP => ⟨by omega, hstep j s hP.1 hj hP.2⟩)
    (last + 1 - first).toNat first s rfl hle ⟨le_refl _, h0⟩
  exact h.2

theorem list_eq_map_range {α : Type} (l : List α) (f : Nat → α) (N : Nat)
    (hl : l.length = N) (h : ∀ k, k < N → l[k]? = some (f k)) :
    l = (List.range N).map f := by
  apply List.ext_getElem?
  intro k
  by_cases hk : k < N
  · rw [h k hk]; simp [List.getElem?_range hk]
  · rw [List.getElem?_eq_none (by omega), List.getElem?_eq_none (by simp; omega)]

theorem Allocator.leafSize_eq (A : Allocator) : A.leafSize = 2 ^ A.LEAF_BITS := by
  simp [Allocator.leafSize, Nat.shiftLeft_eq]

theorem Allocator.last_ofs_eq (A : Allocator) : A.last_ofs = (A.leafSize : Int) - 1 := by
  simp [Allocator.last_ofs, Allocator.leafSize_eq]

theorem Allocator.leafSize_pos (A : Allocator) : 0 < A.leafSize := by
  rw [A.leafSize_eq]; exact Nat.pos_pow_of_pos _ (by decide)

theorem Allocator.leafSize_le (A : Allocator) : A.leafSize ≤ 1073741824 := by
  rw [A.leafSize_eq]
  have h : 2 ^ A.LEAF_BITS ≤ 2 ^ 30 := Nat.pow_le_pow_right (by decide) A.leaf_bits_le
  have h30 : 2 ^ 30 = 1073741824 := by norm_num
  omega

theorem Frame.update_at (s : Frame) (m : Nat) (f : ET → ET) (e : ET)
    (h : s.leaf.elems[m]? = some e) :
    s.update (m : Int) f =
      ⟨{ s.leaf with elems := s.leaf.elems.set m (f e) }, s.indexed ++ [(m : Int)]⟩ := by
  simp [Frame.update, h]

theorem init_loop (A : Allocator) (first_index last_index owner : Int) :
    forLoop 0 A.last_ofs (initBody A first_index owner)
        ⟨LEAF_TYPE.create A.leafSize 0 first_index last_index, []⟩ =
      ⟨⟨0, first_index, last_index, (List.range A.leafSize).map (initElem A first_index owner)⟩,
        (List.range A.leafSize).map Int.ofNat⟩ := by
  have key := forLoop_inv 0 A.last_ofs (initBody A first_index owner)
    (fun j s => ∃ m : Nat, j = (m : Int) ∧ m ≤ A.leafSize ∧ s.leaf.level = 0 ∧
      s.leaf.first_index = first_index ∧ s.leaf.last_index = last_index ∧
      s.leaf.elems.length = A.leafSize ∧
      (∀ k, k < A.leafSize →
        s.leaf.elems[k]? = some (if k < m then initElem A first_index owner k else ET.fresh)) ∧
      s.indexed = (List.range m).map Int.ofNat)
    ⟨LEAF_TYPE.create A.leafSize 0 first_index last_index, []⟩
    (by rw [A.last_ofs_eq]; omega)
    ⟨0, rfl, Nat.zero_le _, rfl, rfl, rfl, by simp [LEAF_TYPE.create], by
      intro k hk; simp [LEAF_TYPE.create, hk], by simp⟩
    (by
      rintro j s h0 hj ⟨m, rfl, hm, h1, h2, h3, h4, h5, h6⟩
      rw [A.last_ofs_eq] at hj
      have hmN : m < A.leafSize := by omega
      have hget := h5 m hmN
      simp only [lt_irrefl, if_false] at hget
      refine ⟨m + 1, by push_cast; rfl, hmN, ?_⟩
      rw [initBody, Frame.update_at s m _ _ hget]
      refine ⟨h1, h2, h3, by simp [h4], ?_, by simp [h6, List.range_succ]⟩
      intro k hk
      rw [List.getElem?_set]
      by_cases hkm : m = k
      · subst hkm
        simp [h4, hmN, initElem, ET.init, ET.fresh]
      · rw [if_neg hkm, h5 k hk]
        by_cases hlt : k < m
        · simp [hlt, Nat.lt_succ_of_lt hlt]
        · have : ¬ k < m + 1 := by omega
          simp [hlt, this])
  obtain ⟨m, hm, hle, h1, h2, h3, h4, h5, h6⟩ := key
  have hmN : m = A.leafSize := by rw [A.last_ofs_eq] at hm; omega
  subst hmN
  generalize forLoop 0 A.last_ofs (initBody A first_index owner)
        ⟨LEAF_TYPE.create A.leafSize 0 first_index last_index, []⟩ = s at *
  obtain ⟨⟨lv, fi, li, el⟩, ix⟩ := s
  simp only at h1 h2 h3 h4 h5 h6
  subst h1 h2 h3 h6
  congr 2
  apply list_eq_map_range _ _ _ h4
  intro k hk
  rw [h5 k hk]; simp [hk]

theorem link_loop (A : Allocator) (addr : Nat) (fl : FreeList)
    (first_index last_index owner : Int) (tr : List Int) :
    forLoop 0 A.last_ofs (linkBody A addr fl)
        ⟨⟨0, first_index, last_index, (List.range A.leafSize).map (initElem A first_index owner)⟩,
          tr⟩ =
      ⟨⟨0, first_index, last_index,
          (List.range A.leafSize).map (linkedElem A addr fl first_index owner)⟩,
        tr ++ linkTrace A.leafSize A.leafSize⟩ := by
  have key := forLoop_inv 0 A.last_ofs (linkBody A addr fl)
    (fun j s => ∃ m : Nat, j = (m : Int) ∧ m ≤ A.leafSize ∧ s.leaf.level = 0 ∧
      s.leaf.first_index = first_index ∧ s.leaf.last_index = last_index ∧
      s.leaf.elems.length = A.leafSize ∧
      (∀ k, k < A.leafSize →
        s.leaf.elems[k]? = some (if k < m then linkedElem A addr fl first_index owner k
          else initElem A first_index owner k)) ∧
      s.indexed = tr ++ linkTrace A.leafSize m)
    ⟨⟨0, first_index, last_index, (List.range A.leafSize).map (initElem A first_index owner)⟩, tr⟩
    (by rw [A.last_ofs_eq]; omega)
    ⟨0, rfl, Nat.zero_le _, rfl, rfl, rfl, by simp, by
      intro k hk; simp [List.getElem?_range hk], by simp [linkTrace]⟩
    (by
      rintro j s h0 hj ⟨m, rfl, hm, h1, h2, h3, h4, h5, h6⟩
      have hj2 := hj
      rw [A.last_ofs_eq] at hj2
      have hmN : m < A.leafSize := by omega
      have hget := h5 m hmN
      simp only [lt_irrefl, if_false] at hget
      refine ⟨m + 1, by push_cast; rfl, hmN, ?_⟩
      have hbody : linkBody A addr fl (m : Int) s =
          ⟨{ s.leaf with elems := s.leaf.elems.set m (linkedElem A addr fl first_index owner m) },
            s.indexed ++ (if m + 1 < A.leafSize then [(m : Int) + 1, (m : Int)] else [(m : Int)])⟩ := by
        unfold linkBody
        by_cases hlt : (m : Int) < A.last_ofs
        · have hlt2 : m + 1 < A.leafSize := by rw [A.last_ofs_eq] at hlt; omega
          rw [if_pos hlt, Frame.update_at (s.index ((m : Int) + 1)) m _ _ hget]
          simp [Frame.index, hlt2, linkedElem, initElem]
        · have hlt2 : ¬ m + 1 < A.leafSize := by rw [A.last_ofs_eq] at hlt; omega
          rw [if_neg hlt, Frame.update_at s m _ _ hget]
          simp [hlt2, linkedElem, initElem]
      rw [hbody]
      refine ⟨h1, h2, h3, by simp [h4], ?_, ?_⟩
      · intro k hk
        simp only
        rw [List.getElem?_set]
        by_cases hkm : m = k
        · subst hkm
          simp [h4, hmN]
        · rw [if_neg hkm, h5 k hk]
          by_cases hlt : k < m
          · simp [hlt, Nat.lt_succ_of_lt hlt]
          · have : ¬ k < m + 1 := by omega
            simp [hlt, this]
      · simp [h6, linkTrace, List.range_succ])
  obtain ⟨m, hm, hle, h1, h2, h3, h4, h5, h6⟩ := key
  have hmN : m = A.leafSize := by rw [A.last_ofs_eq] at hm; omega
  subst hmN
  generalize forLoop 0 A.last_ofs (linkBody A addr fl)
    ⟨⟨0, first_index, last_index, (List.range A.leafSize).map (initElem A first_index owner)⟩,
      tr⟩ = s at *
  obtain ⟨⟨lv, fi, li, el⟩, ix⟩ := s
  simp only at h1 h2 h3 h4 h5 h6
  subst h1 h2 h3 h6
  congr 2
  apply list_eq_map_range _ _ _ h4
  intro k hk
  rw [h5 k hk]; simp [hk]

theorem new_leaf_node_some (A : Allocator) (heap : List LEAF_TYPE)
    (first_index last_index owner : Int) (fl : FreeList) :
    new_leaf_node A heap first_index last_index owner (some fl) =
      { heap := heap ++ [⟨0, first_index, last_index,
          (List.range A.leafSize).map (linkedElem A heap.length fl first_index owner)⟩],
        leaf := heap.length,
        free_list := some ⟨some ⟨heap.length, (headOfs first_index : Int)⟩⟩,
        indexed := (List.range A.leafSize).map Int.ofNat ++ linkTrace A.leafSize A.leafSize ++
          [(headOfs first_index : Int)] } := by
  simp only [new_leaf_node, init_loop, link_loop, Frame.index, headOfs]
  by_cases h : first_index = 0 <;> simp [h]

theorem new_leaf_node_none (A : Allocator) (heap : List LEAF_TYPE)
    (first_index last_index owner : Int) :
    new_leaf_node A heap first_index last_index owner none =
      { heap := heap ++ [⟨0, first_index, last_index,
          (List.range A.leafSize).map (initElem A first_index owner)⟩],
        leaf := heap.length,
        free_list := none,
        indexed := (List.range A.leafSize).map Int.ofNat } := by
  simp only [new_leaf_node, init_loop]

/-! ## Free lists: general facts -/

theorem freeSeq_nil (heap : List LEAF_TYPE) (p : ETPtr) : freeSeq heap p [] ↔ p = none := by
  simp [freeSeq]

theorem freeSeq_cons (heap : List LEAF_TYPE) (p : ETPtr) (a : SlotRef) (L : List SlotRef) :
    freeSeq heap p (a :: L) ↔
      p = some a ∧ ∃ e, elemAt heap a = some e ∧ freeSeq heap e.next_free L := by
  rw [freeSeq]
  cases h : elemAt heap a with
  | none => simp
  | some e => simp

theorem elemAt_lt (heap : List LEAF_TYPE) (p : SlotRef) (e : ET) (h : elemAt heap p = some e) :
    p.leaf < heap.length := by
  unfold elemAt at h
  by_contra hlt
  rw [List.getElem?_eq_none (by omega)] at h
  split at h <;> simp at h

theorem elemAt_append (heap ext : List LEAF_TYPE) (p : SlotRef) (e : ET)
    (h : elemAt heap p = some e) : elemAt (heap ++ ext) p = some e := by
  have hlt := elemAt_lt heap p e h
  unfold elemAt at h ⊢
  rw [List.getElem?_append_left hlt]
  exact h

theorem elemAt_new (heap : List LEAF_TYPE) (l : LEAF_TYPE) (k : Nat) :
    elemAt (heap ++ [l]) ⟨heap.length, (k : Int)⟩ = l.elems[k]? := by
  simp [elemAt]

theorem freeSeq_append (heap ext : List LEAF_TYPE) (L : List SlotRef) :
    ∀ p, freeSeq heap p L → freeSeq (heap ++ ext) p L := by
  induction L with
  | nil => intro p h; simpa [freeSeq] using h
  | cons a L ih =>
    intro p h
    rw [freeSeq_cons] at h ⊢
    obtain ⟨hp, e, he, hrest⟩ := h
    exact ⟨hp, e, elemAt_append heap ext a e he, ih _ hrest⟩

theorem freeSeq_mem_lt (heap : List LEAF_TYPE) (L : List SlotRef) :
    ∀ p, freeSeq heap p L → ∀ a ∈ L, a.leaf < heap.length := by
  induction L with
  | nil => intro p _ a ha; simp at ha
  | cons b L ih =>
    intro p h a ha
    rw [freeSeq_cons] at h
    obtain ⟨_, e, he, hrest⟩ := h
    rcases List.mem_cons.1 ha with rfl | ha
    · exact elemAt_lt heap _ e he
    · exact ih _ hrest a ha

theorem freeSeq_unique (heap : List LEAF_TYPE) (L₁ : List SlotRef) :
    ∀ p L₂, freeSeq heap p L₁ → freeSeq heap p L₂ → L₁ = L₂ := by
  induction L₁ with
  | nil =>
    intro p L₂ h1 h2
    rw [freeSeq_nil] at h1
    cases L₂ with
    | nil => rfl
    | cons b L₂ => rw [freeSeq_cons] at h2; rw [h1] at h2; simp at h2
  | cons a L₁ ih =>
    intro p L₂ h1 h2
    rw [freeSeq_cons] at h1
    obtain ⟨hp, e, he, hrest⟩ := h1
    cases L₂ with
    | nil => rw [freeSeq_nil] at h2; rw [h2] at hp; simp at hp
    | cons b L₂ =>
      rw [freeSeq_cons] at h2
      obtain ⟨hp2, e2, he2, hrest2⟩ := h2
      have hab : a = b := by rw [hp] at hp2; exact Option.some.inj hp2
      subst hab
      have hee : e = e2 := by rw [he] at he2; exact Option.some.inj he2
      subst hee
      rw [ih _ _ hrest hrest2]

theorem freeSeq_suffix (heap : List LEAF_TYPE) (xs M : List SlotRef) :
    ∀ p, freeSeq heap p (xs ++ M) → ∃ q, freeSeq heap q M := by
  induction xs with
  | nil => intro p h; exact ⟨p, h⟩
  | cons a xs ih =>
    intro p h
    rw [List.cons_append, freeSeq_cons] at h
    obtain ⟨_, e, _, hrest⟩ := h
    exact ih _ hrest

/-- A sequence obtained by following `next_free` up to the null pointer never
meets an element twice: the list is acyclic. -/
theorem freeSeq_nodup (heap : List LEAF_TYPE) (L : List SlotRef) :
    ∀ p, freeSeq heap p L → L.Nodup := by
  induction L with
  | nil => intro p _; exact List.nodup_nil
  | cons a L ih =>
    intro p h
    have h' := h
    rw [freeSeq_cons] at h'
    obtain ⟨_, e, he, hrest⟩ := h'
    refine List.nodup_cons.2 ⟨?_, ih _ hrest⟩
    intro hmem
    obtain ⟨xs, ys, hL⟩ := List.append_of_mem hmem
    rw [hL] at hrest
    obtain ⟨q, hq⟩ := freeSeq_suffix heap xs (a :: ys) _ hrest
    rw [freeSeq_cons] at hq
    obtain ⟨_, e2, he2, hys⟩ := hq
    have hee : e2 = e := by rw [he] at he2; exact (Option.some.inj he2).symm
    subst hee
    have := freeSeq_unique heap _ _ _ hrest hys
    have hlen := congrArg List.length this
    simp at hlen
    omega

theorem freeSeq_walk (heap : List LEAF_TYPE) (L : List SlotRef) :
    ∀ p n, freeSeq heap p L → walk heap n p = L.take n := by
  induction L with
  | nil =>
    intro p n h
    rw [freeSeq_nil] at h
    subst h
    cases n <;> simp [walk]
  | cons a L ih =>
    intro p n h
    rw [freeSeq_cons] at h
    obtain ⟨hp, e, he, hrest⟩ := h
    subst hp
    cases n with
    | zero => simp [walk]
    | succ n => simp [walk, he, ih _ n hrest]

theorem freeSeq_reachable (heap : List LEAF_TYPE) (L : List SlotRef) (p : ETPtr)
    (h : freeSeq heap p L) (a : SlotRef) : Reachable heap p a ↔ a ∈ L := by
  constructor
  · rintro ⟨n, hn⟩
    rw [freeSeq_walk heap L p n h] at hn
    exact List.mem_of_mem_take hn
  · intro ha
    refine ⟨L.length, ?_⟩
    rw [freeSeq_walk heap L p _ h, List.take_length]
    exact ha

/-! ## The free list after `new_leaf_node` -/

theorem newSlots_cons (addr j N : Nat) (h : j < N) :
    newSlots addr j N = ⟨addr, (j : Int)⟩ :: newSlots addr (j + 1) N := by
  unfold newSlots
  have : N - j = (N - (j + 1)) + 1 := by omega
  rw [this, List.range'_succ]
  simp

theorem newSlots_empty (addr N : Nat) : newSlots addr N N = [] := by
  simp [newSlots]

theorem newSlots_length (addr j N : Nat) : (newSlots addr j N).length = N - j := by
  simp [newSlots]

theorem mem_newSlots (addr j N : Nat) (a : SlotRef) :
    a ∈ newSlots addr j N ↔ a.leaf = addr ∧ (j : Int) ≤ a.ofs ∧ a.ofs < (N : Int) := by
  obtain ⟨l, o⟩ := a
  unfold newSlots
  simp only [List.mem_map, List.mem_range'_1, SlotRef.mk.injEq]
  constructor
  · rintro ⟨k, ⟨h1, h2⟩, rfl, rfl⟩
    exact ⟨rfl, by omega, by omega⟩
  · rintro ⟨h1, h2, h3⟩
    exact ⟨o.toNat, ⟨by omega, by omega⟩, h1.symm, by omega⟩

theorem chain_freeSeq (A : Allocator) (heap : List LEAF_TYPE) (fl : FreeList)
    (first_index last_index owner : Int) (L : List SlotRef)
    (hL : freeSeq heap fl.first_free L) :
    ∀ d j, j + d = A.leafSize →
      freeSeq (heap ++ [⟨0, first_index, last_index,
          (List.range A.leafSize).map (linkedElem A heap.length fl first_index owner)⟩])
        (if j < A.leafSize then some ⟨heap.length, (j : Int)⟩ else fl.first_free)
        (newSlots heap.length j A.leafSize ++ L) := by
  intro d
  induction d with
  | zero =>
    intro j hj
    have : j = A.leafSize := by omega
    subst this
    simp only [lt_irrefl, if_false, newSlots_empty, List.nil_append]
    exact freeSeq_append heap _ L _ hL
  | succ d ih =>
    intro j hj
    have hlt : j < A.leafSize := by omega
    rw [if_pos hlt, newSlots_cons _ _ _ hlt, List.cons_append, freeSeq_cons]
    refine ⟨rfl, linkedElem A heap.length fl first_index owner j, ?_, ?_⟩
    · rw [elemAt_new]
      simp [List.getElem?_range hlt]
    · have := ih (j + 1) (by omega)
      simpa [linkedElem] using this

theorem new_leaf_node_freeSeq (A : Allocator) (heap : List LEAF_TYPE)
    (first_index last_index owner : Int) (fl : FreeList) (L : List SlotRef)
    (hL : freeSeq heap fl.first_free L) (hhead : headOfs first_index < A.leafSize) :
    freeSeq (new_leaf_node A heap first_index last_index owner (some fl)).heap
      (some ⟨heap.length, (headOfs first_index : Int)⟩)
      (newSlots heap.length (headOfs first_index) A.leafSize ++ L) := by
  rw [new_leaf_node_some]
  have := chain_freeSeq A heap fl first_index last_index owner L hL
    (A.leafSize - headOfs first_index) (headOfs first_index) (by omega)
  rw [if_pos hhead] at this
  exact this

theorem headOfs_lt (A : Allocator) (first_index : Int)
    (h : 1 ≤ A.LEAF_BITS ∨ first_index ≠ 0) : headOfs first_index < A.leafSize := by
  rcases h with h | h
  · have : 2 ^ 1 ≤ 2 ^ A.LEAF_BITS := Nat.pow_le_pow_right (by decide) h
    rw [A.leafSize_eq]
    unfold headOfs
    split <;> omega
  · have := A.leafSize_pos
    simp [headOfs, h, this]

theorem walk_chain (A : Allocator) (heap : List LEAF_TYPE) (fl : FreeList)
    (first_index last_index owner : Int) :
    ∀ d j, j + d < A.leafSize →
      (⟨heap.length, ((j + d : Nat) : Int)⟩ : SlotRef) ∈
        walk (heap ++ [⟨0, first_index, last_index,
          (List.range A.leafSize).map (linkedElem A heap.length fl first_index owner)⟩])
          (d + 1) (some ⟨heap.length, (j : Int)⟩) := by
  intro d
  induction d with
  | zero => intro j _; simp [walk]
  | succ d ih =>
    intro j hj
    have hlt : j < A.leafSize := by omega
    have hlt1 : j + 1 < A.leafSize := by omega
    rw [walk, elemAt_new]
    simp only [List.getElem?_map, List.getElem?_range hlt, Option.map_some']
    refine List.mem_cons_of_mem _ ?_
    have := ih (j + 1) (by omega)
    have e1 : j + 1 + d = j + (d + 1) := by omega
    rw [e1] at this
    simpa [linkedElem, hlt1] using this

theorem walk_dangling (heap : List LEAF_TYPE) (a : SlotRef) (h : elemAt heap a = none) :
    ∀ n, ∀ x ∈ walk heap n (some a), x = a := by
  intro n x hx
  cases n with
  | zero => simp [walk] at hx
  | succ n => simpa [walk, h] using hx

theorem reachable_new_leaf (A : Allocator) (heap : List LEAF_TYPE)
    (first_index last_index owner : Int) (fl : FreeList) (L : List SlotRef)
    (hL : freeSeq heap fl.first_free L) (a : SlotRef)
    (h : Reachable (new_leaf_node A heap first_index last_index owner (some fl)).heap
      (some ⟨heap.length, (headOfs first_index : Int)⟩) a) :
    a ∈ newSlots heap.length (headOfs first_index) A.leafSize ++ L ∨
      (a = ⟨heap.length, (headOfs first_index : Int)⟩ ∧ A.leafSize ≤ headOfs first_index) := by
  by_cases hlt : headOfs first_index < A.leafSize
  · left
    have hseq := new_leaf_node_freeSeq A heap first_index last_index owner fl L hL hlt
    exact (freeSeq_reachable _ _ _ hseq a).1 h
  · right
    rw [new_leaf_node_some] at h
    have hd : elemAt (heap ++ [⟨0, first_index, last_index,
        (List.range A.leafSize).map (linkedElem A heap.length fl first_index owner)⟩])
        ⟨heap.length, ((headOfs first_index : Nat) : Int)⟩ = none := by
      rw [elemAt_new]
      simp only [List.getElem?_eq_none_iff, List.length_map, List.length_range]
      omega
    obtain ⟨n, hn⟩ := h
    exact ⟨walk_dangling _ _ hd n _ hn, by omega⟩

theorem slotIndex_new (A : Allocator) (heap : List LEAF_TYPE)
    (first_index last_index owner : Int) (fl : FreeList) (k : Nat) (hk : k < A.leafSize) :
    slotIndex (new_leaf_node A heap first_index last_index owner (some fl)).heap
      ⟨heap.length, (k : Int)⟩ = some (wrapInt (first_index + (k : Int))) := by
  rw [new_leaf_node_some, slotIndex, elemAt_new]
  simp [List.getElem?_range hk, linkedElem]

theorem new_leaf_node_heap (A : Allocator) (heap : List LEAF_TYPE)
    (first_index last_index owner : Int) (free_list : Option FreeList) :
    ∃ l, (new_leaf_node A heap first_index last_index owner free_list).heap = heap ++ [l] ∧
      (new_leaf_node A heap first_index last_index owner free_list).leaf = heap.length ∧
      l.level = 0 ∧ l.first_index = first_index ∧ l.last_index = last_index ∧
      l.elems.length = A.leafSize ∧
      l.elems.map ET.init_args = (List.range A.leafSize).map
        (fun (i : Nat) =>
          some (ID.mk A.ID_TYPE owner (wrapInt (first_index + (i : Int))), owner)) := by
  cases free_list with
  | none =>
    rw [new_leaf_node_none]
    exact ⟨_, rfl, rfl, rfl, rfl, rfl, by simp, by simp [initElem]⟩
  | some fl =>
    rw [new_leaf_node_some]
    exact ⟨_, rfl, rfl, rfl, rfl, rfl, by simp, by simp [linkedElem]⟩

/-- C1: `new_leaf_node` returns a leaf of exactly `2^LEAF_BITS` elements
covering `[first_index, last_index]`; element `i` has been initialised with
`ID(ET::ID_TYPE, owner, first_index + i)`, the sum being the `int` sum, and
owner `owner`, so no element is left uninitialised, and no two elements of
the leaf get the same index. -/
theorem new_leaf_node_initialises_every_slot (A : Allocator) (heap : List LEAF_TYPE)
    (first_index last_index owner : Int) (free_list : Option FreeList) :
    ∃ l, (new_leaf_node A heap first_index last_index owner free_list).heap[
          (new_leaf_node A heap first_index last_index owner free_list).leaf]? = some l ∧
      l.elems.length = 2 ^ A.LEAF_BITS ∧
      l.first_index = first_index ∧ l.last_index = last_index ∧
      l.elems.map ET.init_args = (List.range (2 ^ A.LEAF_BITS)).map
        (fun (i : Nat) =>
          some (ID.mk A.ID_TYPE owner (wrapInt (first_index + (i : Int))), owner)) ∧
      (l.elems.map (fun e => e.init_args.map (fun a => a.1.index))).Nodup := by
  obtain ⟨l, h1, h2, _, h4, h5, h6, h7⟩ :=
    new_leaf_node_heap A heap first_index last_index owner free_list
  refine ⟨l, by rw [h1, h2]; simp, by rw [h6, A.leafSize_eq], h4, h5,
    by rw [h7, A.leafSize_eq], ?_⟩
  have : l.elems.map (fun e => e.init_args.map (fun a => a.1.index)) =
      (l.elems.map ET.init_args).map (fun o => o.map (fun a => a.1.index)) := by
    simp [List.map_map, Function.comp_def]
  rw [this, h7, List.map_map]
  refine List.Nodup.map_on ?_ (List.nodup_range _)
  intro i hi j hj hij
  rw [List.mem_range] at hi hj
  have hle := A.leafSize_le
  simp only [Function.comp_apply, Option.map_some', Option.some.injEq] at hij
  unfold wrapInt at hij
  omega

/-- C1 on the event table for the last leaf below `INT_MAX`
(`first_index = 2^31 - 256`) and for a `first_index` eight below `INT_MAX`,
where the `int` sum `first_index + i` wraps to `INT_MIN` at offset 8. -/
theorem new_leaf_node_initialises_every_slot_witness :
    (∃ l, (new_leaf_node (EventTableAllocator 2) [] 2147483392 2147483647 5 none).heap[
          (new_leaf_node (EventTableAllocator 2) [] 2147483392 2147483647 5 none).leaf]? =
          some l ∧
      l.elems.length = 256 ∧
      (l.elems.map ET.init_args)[255]? =
        some (some (ID.mk 2 5 2147483647, 5))) ∧
    (∃ l, (new_leaf_node (BarrierTableAllocator 3) [] 2147483640 2147483647 5 none).heap[
          (new_leaf_node (BarrierTableAllocator 3) [] 2147483640 2147483647 5 none).leaf]? =
          some l ∧
      (l.elems.map ET.init_args)[8]? =
        some (some (ID.mk 3 5 (-2147483648), 5))) :=
  ⟨(new_leaf_node_initialises_every_slot (EventTableAllocator 2) [] 2147483392 2147483647 5
      none).imp (fun _ h => ⟨h.1, h.2.1, by
        rw [h.2.2.2.2.1, List.getElem?_map,
          List.getElem?_range (show 255 < 2 ^ (EventTableAllocator 2).LEAF_BITS by decide)]
        decide⟩),
    (new_leaf_node_initialises_every_slot (BarrierTableAllocator 3) [] 2147483640 2147483647 5
      none).imp (fun _ h => ⟨h.1, by
        rw [h.2.2.2.2.1, List.getElem?_map,
          List.getElem?_range (show 8 < 2 ^ (BarrierTableAllocator 3).LEAF_BITS by decide)]
        decide⟩)⟩

/-- C2, counterexample: for the barrier table's first leaf (`first_index = 0`,
`LEAF_BITS = 4`) and an empty free list, the new element at offset 0, one of
the `2^LEAF_BITS` new elements, is not reachable from `first_free` after the call. -/
theorem first_leaf_slot_zero_not_linked :
    0 < 2 ^ (BarrierTableAllocator 0).LEAF_BITS ∧
    ∃ fl', (new_leaf_node (BarrierTableAllocator 0) [] 0 15 0 (some ⟨none⟩)).free_list = some fl' ∧
      ¬ Reachable (new_leaf_node (BarrierTableAllocator 0) [] 0 15 0 (some ⟨none⟩)).heap
        fl'.first_free
        ⟨(new_leaf_node (BarrierTableAllocator 0) [] 0 15 0 (some ⟨none⟩)).leaf, 0⟩ := by
  refine ⟨by decide, ?_⟩
  have hseq := new_leaf_node_freeSeq (BarrierTableAllocator 0) [] 0 15 0 ⟨none⟩ []
    (by simp [freeSeq]) (headOfs_lt _ _ (Or.inl (by decide)))
  rw [new_leaf_node_some] at hseq ⊢
  refine ⟨_, rfl, ?_⟩
  simp only [List.length_nil] at hseq ⊢
  rw [freeSeq_reachable _ _ _ hseq]
  simp [mem_newSlots, headOfs]

/-- C2, amended: after `new_leaf_node` with a non-null free list, every
element of the new leaf at an offset `i < 2^LEAF_BITS` is reachable from
`free_list->first_free` by following `next_free`, except the element at
offset 0 when `first_index = 0`: that one is not reachable (the free list
being a proper list with contents `L` before the call). -/
theorem new_slots_linked_except_zero (A : Allocator) (heap : List LEAF_TYPE)
    (first_index last_index owner : Int) (fl : FreeList) (i : Nat)
    (hi : i < 2 ^ A.LEAF_BITS) :
    ∃ fl', (new_leaf_node A heap first_index last_index owner (some fl)).free_list = some fl' ∧
      ((first_index ≠ 0 ∨ i ≠ 0) →
        Reachable (new_leaf_node A heap first_index last_index owner (some fl)).heap
          fl'.first_free
          ⟨(new_leaf_node A heap first_index last_index owner (some fl)).leaf, (i : Int)⟩) ∧
      (∀ L, freeSeq heap fl.first_free L → first_index = 0 → i = 0 →
        ¬ Reachable (new_leaf_node A heap first_index last_index owner (some fl)).heap
          fl'.first_free
          ⟨(new_leaf_node A heap first_index last_index owner (some fl)).leaf, (i : Int)⟩) := by
  have hfl : (new_leaf_node A heap first_index last_index owner (some fl)).free_list =
      some ⟨some ⟨heap.length, (headOfs first_index : Int)⟩⟩ := by rw [new_leaf_node_some]
  have hleaf : (new_leaf_node A heap first_index last_index owner (some fl)).leaf = heap.length := by
    rw [new_leaf_node_some]
  rw [hleaf]
  refine ⟨_, hfl, ?_, ?_⟩
  · intro hz
    rw [new_leaf_node_some]
    rw [← A.leafSize_eq] at hi
    have hh : headOfs first_index ≤ i := by
      unfold headOfs; split <;> omega
    refine ⟨i - headOfs first_index + 1, ?_⟩
    have := walk_chain A heap fl first_index last_index owner (i - headOfs first_index)
      (headOfs first_index) (by omega)
    have e : headOfs first_index + (i - headOfs first_index) = i := by omega
    rw [e] at this
    exact this
  · intro L hL h0 hi0 hreach
    subst h0 hi0
    rcases reachable_new_leaf A heap 0 last_index owner fl L hL _ hreach with h | h
    · rcases List.mem_append.1 h with h | h
      · rw [mem_newSlots] at h
        simp [headOfs] at h
      · have := freeSeq_mem_lt heap L _ hL _ h
        simp at this
    · have := congrArg SlotRef.ofs h.1
      simp [headOfs] at this

/-- C2, amended, on the first leaf of the barrier table: element 5 is linked,
element 0 is not. -/
theorem new_slots_linked_except_zero_witness :
    (5 < 2 ^ (BarrierTableAllocator 0).LEAF_BITS ∧ 0 < 2 ^ (BarrierTableAllocator 0).LEAF_BITS ∧
      freeSeq [] (none : ETPtr) []) ∧
    (∃ fl', (new_leaf_node (BarrierTableAllocator 0) [] 0 15 0 (some ⟨none⟩)).free_list = some fl' ∧
      Reachable (new_leaf_node (BarrierTableAllocator 0) [] 0 15 0 (some ⟨none⟩)).heap
        fl'.first_free ⟨(new_leaf_node (BarrierTableAllocator 0) [] 0 15 0 (some ⟨none⟩)).leaf,
          ((5 : Nat) : Int)⟩) ∧
    (∃ fl', (new_leaf_node (BarrierTableAllocator 0) [] 0 15 0 (some ⟨none⟩)).free_list = some fl' ∧
      ¬ Reachable (new_leaf_node (BarrierTableAllocator 0) [] 0 15 0 (some ⟨none⟩)).heap
        fl'.first_free ⟨(new_leaf_node (BarrierTableAllocator 0) [] 0 15 0 (some ⟨none⟩)).leaf,
          ((0 : Nat) : Int)⟩) :=
  ⟨⟨by decide, by decide, by decide⟩,
    (new_slots_linked_except_zero (BarrierTableAllocator 0) [] 0 15 0 ⟨none⟩ 5 (by decide)).imp
      (fun _ h => ⟨h.1, h.2.1 (Or.inr (by decide))⟩),
    (new_slots_linked_except_zero (BarrierTableAllocator 0) [] 0 15 0 ⟨none⟩ 0 (by decide)).imp
      (fun _ h => ⟨h.1, h.2.2 [] (by decide) rfl rfl⟩)⟩

theorem slotIndex_append (heap ext : List LEAF_TYPE) (p : SlotRef) (e : ET)
    (h : elemAt heap p = some e) : slotIndex (heap ++ ext) p = slotIndex heap p := by
  simp [slotIndex, h, elemAt_append heap ext p e h]

theorem freeSeq_mem_elemAt (heap : List LEAF_TYPE) (L : List SlotRef) :
    ∀ p, freeSeq heap p L → ∀ a ∈ L, ∃ e, elemAt heap a = some e := by
  induction L with
  | nil => intro p _ a ha; simp at ha
  | cons b L ih =>
    intro p h a ha
    rw [freeSeq_cons] at h
    obtain ⟨_, e, he, hrest⟩ := h
    rcases List.mem_cons.1 ha with rfl | ha
    · exact ⟨e, he⟩
    · exact ih _ hrest a ha

/-- C3: the zero index is reserved.  When the free list (with contents `L`)
holds no element of index 0, then after `new_leaf_node` with `first_index = 0`
the new element at offset 0, which has index 0, is not reachable from
`first_free`, and no element reachable from `first_free` has index 0: however
often the list is popped, no element of index 0 comes out. -/
theorem zero_index_never_on_free_list (A : Allocator) (heap : List LEAF_TYPE)
    (last_index owner : Int) (fl : FreeList) (L : List SlotRef)
    (hL : freeSeq heap fl.first_free L) (h0 : ∀ a ∈ L, slotIndex heap a ≠ some 0) :
    ∃ fl', (new_leaf_node A heap 0 last_index owner (some fl)).free_list = some fl' ∧
      slotIndex (new_leaf_node A heap 0 last_index owner (some fl)).heap
        ⟨(new_leaf_node A heap 0 last_index owner (some fl)).leaf, 0⟩ = some 0 ∧
      ¬ Reachable (new_leaf_node A heap 0 last_index owner (some fl)).heap fl'.first_free
        ⟨(new_leaf_node A heap 0 last_index owner (some fl)).leaf, 0⟩ ∧
      ∀ a, Reachable (new_leaf_node A heap 0 last_index owner (some fl)).heap fl'.first_free a →
        slotIndex (new_leaf_node A heap 0 last_index owner (some fl)).heap a ≠ some 0 := by
  have hfl : (new_leaf_node A heap 0 last_index owner (some fl)).free_list =
      some ⟨some ⟨heap.length, (headOfs 0 : Int)⟩⟩ := by rw [new_leaf_node_some]
  have hleaf : (new_leaf_node A heap 0 last_index owner (some fl)).leaf = heap.length := by
    rw [new_leaf_node_some]
  have hslot0 := slotIndex_new A heap 0 last_index owner fl 0 A.leafSize_pos
  have hw0 : wrapInt 0 = 0 := by decide
  simp only [Nat.cast_zero, Int.add_zero, hw0] at hslot0
  rw [hleaf]
  refine ⟨_, hfl, hslot0, ?_, ?_⟩
  · intro hreach
    rcases reachable_new_leaf A heap 0 last_index owner fl L hL _ hreach with h | h
    · rcases List.mem_append.1 h with h | h
      · rw [mem_newSlots] at h
        simp [headOfs] at h
      · have := freeSeq_mem_lt heap L _ hL _ h
        simp at this
    · have := congrArg SlotRef.ofs h.1
      simp [headOfs] at this
  · intro a hreach
    rcases reachable_new_leaf A heap 0 last_index owner fl L hL a hreach with h | h
    · rcases List.mem_append.1 h with h | h
      · rw [mem_newSlots] at h
        obtain ⟨l, o⟩ := a
        obtain ⟨h1, h2, h3⟩ := h
        simp only at h1 h2 h3
        subst h1
        have hk : o = ((o.toNat : Nat) : Int) := by omega
        have hlt : o.toNat < A.leafSize := by omega
        rw [hk, slotIndex_new A heap 0 last_index owner fl o.toNat hlt]
        simp only [headOfs, ne_eq, not_true_eq_false, if_false, Nat.cast_one] at h2
        simp only [ne_eq, Option.some.injEq]
        have hle := A.leafSize_le
        unfold wrapInt
        omega
      · obtain ⟨e, he⟩ := freeSeq_mem_elemAt heap L _ hL a h
        rw [new_leaf_node_some, slotIndex_append heap _ a e he]
        exact h0 a h
    · obtain ⟨ha, hle⟩ := h
      subst ha
      rw [new_leaf_node_some, slotIndex, elemAt_new]
      simp only [List.getElem?_eq_none_iff.2 (show ((List.range A.leafSize).map
        (linkedElem A heap.length fl 0 owner)).length ≤ headOfs 0 by simpa using hle)]
      simp

/-- C3 on the barrier table with a free list of two elements of index 2 and 3. -/
theorem zero_index_never_on_free_list_witness :
    (freeSeq sampleHeap sampleFreeList.first_free [⟨0, 0⟩, ⟨0, 1⟩] ∧
      ∀ a ∈ [(⟨0, 0⟩ : SlotRef), ⟨0, 1⟩], slotIndex sampleHeap a ≠ some 0) ∧
    ∃ fl', (new_leaf_node (BarrierTableAllocator 0) sampleHeap 0 15 0
        (some sampleFreeList)).free_list = some fl' ∧
      slotIndex (new_leaf_node (BarrierTableAllocator 0) sampleHeap 0 15 0
          (some sampleFreeList)).heap
        ⟨(new_leaf_node (BarrierTableAllocator 0) sampleHeap 0 15 0
          (some sampleFreeList)).leaf, 0⟩ = some 0 ∧
      ¬ Reachable (new_leaf_node (BarrierTableAllocator 0) sampleHeap 0 15 0
          (some sampleFreeList)).heap fl'.first_free
        ⟨(new_leaf_node (BarrierTableAllocator 0) sampleHeap 0 15 0
          (some sampleFreeList)).leaf, 0⟩ ∧
      ∀ a, Reachable (new_leaf_node (BarrierTableAllocator 0) sampleHeap 0 15 0
          (some sampleFreeList)).heap fl'.first_free a →
        slotIndex (new_leaf_node (BarrierTableAllocator 0) sampleHeap 0 15 0
          (some sampleFreeList)).heap a ≠ some 0 :=
  ⟨⟨by decide, by decide⟩,
    zero_index_never_on_free_list (BarrierTableAllocator 0) sampleHeap 15 0 sampleFreeList
      [⟨0, 0⟩, ⟨0, 1⟩] (by decide) (by decide)⟩

/-- C8: exact contents of the free list after growth.  If following
`next_free` from `first_free` gave `L` before the call, it gives afterwards
the new leaf's elements in ascending offset order (from offset 0 when
`first_index != 0`, from offset 1 when `first_index = 0`) followed by `L`;
that sequence has no repetition and `2^LEAF_BITS` (resp. `2^LEAF_BITS - 1`)
more elements than `L` (`LEAF_BITS >= 1`, or `first_index != 0`, so that the
head element exists).  With a null `free_list` the call returns no free
list, only adds the new leaf to memory, and the list reads `L` as before. -/
theorem free_list_contents_after_growth (A : Allocator) (heap : List LEAF_TYPE)
    (first_index last_index owner : Int) (fl : FreeList) (L : List SlotRef)
    (hL : freeSeq heap fl.first_free L) (hbits : 1 ≤ A.LEAF_BITS ∨ first_index ≠ 0) :
    (∃ fl', (new_leaf_node A heap first_index last_index owner (some fl)).free_list = some fl' ∧
      freeSeq (new_leaf_node A heap first_index last_index owner (some fl)).heap fl'.first_free
        (newSlots (new_leaf_node A heap first_index last_index owner (some fl)).leaf
          (if first_index ≠ 0 then 0 else 1) (2 ^ A.LEAF_BITS) ++ L) ∧
      (newSlots (new_leaf_node A heap first_index last_index owner (some fl)).leaf
          (if first_index ≠ 0 then 0 else 1) (2 ^ A.LEAF_BITS) ++ L).Nodup ∧
      (newSlots (new_leaf_node A heap first_index last_index owner (some fl)).leaf
          (if first_index ≠ 0 then 0 else 1) (2 ^ A.LEAF_BITS) ++ L).length =
        L.length + (2 ^ A.LEAF_BITS - (if first_index ≠ 0 then 0 else 1))) ∧
    ((new_leaf_node A heap first_index last_index owner none).free_list = none ∧
      ∃ l, (new_leaf_node A heap first_index last_index owner none).heap = heap ++ [l] ∧
        freeSeq (new_leaf_node A heap first_index last_index owner none).heap fl.first_free L) := by
  have hseq := new_leaf_node_freeSeq A heap first_index last_index owner fl L hL
    (headOfs_lt A first_index hbits)
  have hhead : headOfs first_index = (if first_index ≠ 0 then 0 else 1) := rfl
  rw [hhead, A.leafSize_eq] at hseq
  constructor
  · have hleaf : (new_leaf_node A heap first_index last_index owner (some fl)).leaf =
        heap.length := by rw [new_leaf_node_some]
    have hfl : (new_leaf_node A heap first_index last_index owner (some fl)).free_list =
        some ⟨some ⟨heap.length, ((if first_index ≠ 0 then 0 else 1 : Nat) : Int)⟩⟩ := by
      rw [new_leaf_node_some]; rfl
    rw [hleaf]
    refine ⟨_, hfl, hseq, freeSeq_nodup _ _ _ hseq, ?_⟩
    have := headOfs_lt A first_index hbits
    rw [hhead, A.leafSize_eq] at this
    rw [List.length_append, newSlots_length]
    omega
  · rw [new_leaf_node_none]
    exact ⟨rfl, _, rfl, freeSeq_append heap _ L _ hL⟩

/-- C8 on the barrier table, growing a free list of two elements. -/
theorem free_list_contents_after_growth_witness :
    (freeSeq sampleHeap sampleFreeList.first_free [⟨0, 0⟩, ⟨0, 1⟩] ∧
      (1 ≤ (BarrierTableAllocator 0).LEAF_BITS ∨ (16 : Int) ≠ 0)) ∧
    ∃ fl', (new_leaf_node (BarrierTableAllocator 0) sampleHeap 16 31 0
        (some sampleFreeList)).free_list = some fl' ∧
      freeSeq (new_leaf_node (BarrierTableAllocator 0) sampleHeap 16 31 0
          (some sampleFreeList)).heap fl'.first_free
        (newSlots 1 0 16 ++ [⟨0, 0⟩, ⟨0, 1⟩]) :=
  ⟨⟨by decide, Or.inl (by decide)⟩,
    (free_list_contents_after_growth (BarrierTableAllocator 0) sampleHeap 16 31 0
      sampleFreeList [⟨0, 0⟩, ⟨0, 1⟩] (by decide) (Or.inl (by decide))).1.imp
      (fun _ h => ⟨h.1, h.2.1⟩)⟩

theorem mem_linkTrace (N m : Nat) (hm : m ≤ N) (k : Int) (hk : k ∈ linkTrace N m) :
    0 ≤ k ∧ k < (N : Int) := by
  unfold linkTrace at hk
  rw [List.mem_flatMap] at hk
  obtain ⟨i, hi, hki⟩ := hk
  rw [List.mem_range] at hi
  split at hki
  · simp at hki
    omega
  · simp at hki
    omega

/-- C9: index safety.  For `LEAF_BITS >= 1` the offsets `new_leaf_node`
indexes are: `i` for each iteration of the initialisation loop; with a
non-null free list also `i + 1` (only when `i < last_ofs`) and `i` for each
iteration of the linking loop and the head offset 0 or 1; every one of them
lies in `[0, 2^LEAF_BITS)`. -/
theorem new_leaf_node_indexes_in_bounds (A : Allocator) (heap : List LEAF_TYPE)
    (first_index last_index owner : Int) (free_list : Option FreeList)
    (hbits : 1 ≤ A.LEAF_BITS) :
    (new_leaf_node A heap first_index last_index owner free_list).indexed =
      (List.range (2 ^ A.LEAF_BITS)).map Int.ofNat ++
        (match free_list with
         | some _ => linkTrace (2 ^ A.LEAF_BITS) (2 ^ A.LEAF_BITS) ++
            [if first_index ≠ 0 then 0 else 1]
         | none => []) ∧
    ∀ k ∈ (new_leaf_node A heap first_index last_index owner free_list).indexed,
      0 ≤ k ∧ k < 2 ^ A.LEAF_BITS := by
  have h2 : 2 ≤ 2 ^ A.LEAF_BITS := by
    have : 2 ^ 1 ≤ 2 ^ A.LEAF_BITS := Nat.pow_le_pow_right (by decide) hbits
    simpa using this
  have hrange : ∀ k ∈ (List.range (2 ^ A.LEAF_BITS)).map Int.ofNat,
      0 ≤ k ∧ k < ((2 ^ A.LEAF_BITS : Nat) : Int) := by
    intro k hk
    rw [List.mem_map] at hk
    obtain ⟨i, hi, rfl⟩ := hk
    rw [List.mem_range] at hi
    exact ⟨Int.ofNat_nonneg i, Int.ofNat_lt.2 hi⟩
  cases free_list with
  | none =>
    rw [new_leaf_node_none, A.leafSize_eq]
    refine ⟨by simp, ?_⟩
    intro k hk
    have := hrange k hk
    exact ⟨this.1, by exact_mod_cast this.2⟩
  | some fl =>
    rw [new_leaf_node_some, A.leafSize_eq]
    refine ⟨by simp [headOfs], ?_⟩
    intro k hk
    simp only [List.append_assoc, List.mem_append] at hk
    have hcast : ((2 ^ A.LEAF_BITS : Nat) : Int) = 2 ^ A.LEAF_BITS := by push_cast; rfl
    rw [← hcast]
    rcases hk with hk | hk | hk
    · exact hrange k hk
    · exact mem_linkTrace _ _ (le_refl _) k hk
    · simp only [List.mem_singleton] at hk
      subst hk
      unfold headOfs
      split <;> constructor <;> omega

/-- C9 on the event table (`LEAF_BITS = 8`). -/
theorem new_leaf_node_indexes_in_bounds_witness :
    1 ≤ (EventTableAllocator 0).LEAF_BITS ∧
    ∀ k ∈ (new_leaf_node (EventTableAllocator 0) [] 0 255 0 (some ⟨none⟩)).indexed,
      0 ≤ k ∧ k < 2 ^ (EventTableAllocator 0).LEAF_BITS :=
  ⟨by decide,
    (new_leaf_node_indexes_in_bounds (EventTableAllocator 0) [] 0 255 0 (some ⟨none⟩)
      (by decide)).2⟩

/-- With `LEAF_BITS = 0` and `first_index = 0` the head offset 1 lies outside
the one-element leaf: the bound `LEAF_BITS >= 1` cannot be dropped. -/
theorem new_leaf_node_indexes_leaf_bits_zero :
    (new_leaf_node ⟨0, 10, 0, by decide⟩ [] 0 0 0 (some ⟨none⟩)).indexed = [0, 0, 1] := by
  decide

/-- The five allocators instantiated in `runtime_impl.h` have `LEAF_BITS` 8, 4,
8, 4 and 4, all at least 1. -/
theorem instantiated_allocators_leaf_bits (t : Nat) :
    (EventTableAllocator t).LEAF_BITS = 8 ∧ (BarrierTableAllocator t).LEAF_BITS = 4 ∧
      (ReservationTableAllocator t).LEAF_BITS = 8 ∧ (IndexSpaceTableAllocator t).LEAF_BITS = 4 ∧
      (ProcessorGroupTableAllocator t).LEAF_BITS = 4 :=
  ⟨rfl, rfl, rfl, rfl, rfl⟩

/-- The `int` computations of `new_leaf_node` on offsets stay in the range of
a 32-bit `int`: the shift `1 << LEAF_BITS`, `last_ofs`, and the loop counter
up to its final value `last_ofs + 1`; and where the indices
`first_index .. first_index + last_ofs` are `int` values the sum
`first_index + i` does not wrap. -/
theorem new_leaf_node_int_range (A : Allocator) (first_index : Int) :
    (1 : Int) * 2 ^ A.LEAF_BITS < 2147483648 ∧ 0 ≤ A.last_ofs ∧
      A.last_ofs + 1 < 2147483648 ∧
      ∀ i : Int, 0 ≤ i → i ≤ A.last_ofs → -2147483648 ≤ first_index →
        first_index + A.last_ofs < 2147483648 →
        wrapInt (first_index + i) = first_index + i := by
  have h1 : (2 : Int) ^ A.LEAF_BITS ≤ 2 ^ 30 :=
    pow_le_pow_right₀ (by decide) A.leaf_bits_le
  have h2 : (0 : Int) < 2 ^ A.LEAF_BITS := by positivity
  have h3 : (2 : Int) ^ 30 = 1073741824 := by norm_num
  unfold Allocator.last_ofs
  refine ⟨by omega, by omega, by omega, ?_⟩
  intro i hi0 hi hlo hhi
  unfold wrapInt
  omega

section Reduction

open ReductionOpIntAdd

/-! ## Reduction operator -/

theorem wrapInt_of_range (x : Int) (h1 : -2147483648 ≤ x) (h2 : x < 2147483648) :
    wrapInt x = x := by
  unfold wrapInt; omega

theorem wrapInt_add_left (a b : Int) : wrapInt (wrapInt a + b) = wrapInt (a + b) := by
  unfold wrapInt; omega

theorem wrapInt_add_right (a b : Int) : wrapInt (a + wrapInt b) = wrapInt (a + b) := by
  unfold wrapInt; omega

theorem CInt.ofInt_val (x : CInt) : CInt.ofInt x.val = x :=
  Subtype.ext (wrapInt_of_range x.val x.property.1 x.property.2)

theorem CInt.val_ofInt (x : Int) : (CInt.ofInt x).val = wrapInt x := rfl

namespace ReductionOpIntAdd

theorem fold_comm (EXCL : Bool) (a b : RHS) : fold EXCL a b = fold EXCL b a := by
  unfold fold; rw [Int.add_comm]

theorem fold_assoc (EXCL : Bool) (a b c : RHS) :
    fold EXCL (fold EXCL a b) c = fold EXCL a (fold EXCL b c) := by
  apply Subtype.ext
  show wrapInt (wrapInt (a.val + b.val) + c.val) = wrapInt (a.val + wrapInt (b.val + c.val))
  rw [wrapInt_add_left, wrapInt_add_right, Int.add_assoc]

theorem fold_identity (EXCL : Bool) (r : RHS) : fold EXCL r identity = r := by
  apply Subtype.ext
  show wrapInt (r.val + wrapInt 0) = r.val
  have h0 : wrapInt 0 = 0 := by decide
  rw [h0, Int.add_zero]
  exact wrapInt_of_range r.val r.property.1 r.property.2

theorem apply_identity (EXCL : Bool) (lhs : LHS) : apply EXCL lhs identity = lhs :=
  fold_identity EXCL lhs

theorem apply_apply (EXCL : Bool) (lhs : LHS) (a b : RHS) :
    apply EXCL (apply EXCL lhs a) b = apply EXCL lhs (fold EXCL a b) :=
  fold_assoc EXCL lhs a b

theorem apply_foldl_fold (EXCL : Bool) (vs : List RHS) :
    ∀ (lhs : LHS) (r : RHS),
      apply EXCL lhs (vs.foldl (fold EXCL) r) = vs.foldl (apply EXCL) (apply EXCL lhs r) := by
  induction vs with
  | nil => intro lhs r; rfl
  | cons v vs ih =>
    intro lhs r
    rw [List.foldl_cons, List.foldl_cons, ih, apply_apply]

theorem foldl_fold_val (EXCL : Bool) (vs : List RHS) :
    ∀ r : RHS, (vs.foldl (fold EXCL) r).val = wrapInt (r.val + (vs.map (fun v => v.val)).sum) := by
  induction vs with
  | nil =>
    intro r
    simp [wrapInt_of_range r.val r.property.1 r.property.2]
  | cons v vs ih =>
    intro r
    rw [List.foldl_cons, ih]
    show wrapInt (wrapInt (r.val + v.val) + _) = _
    rw [wrapInt_add_left, List.map_cons, List.sum_cons, Int.add_assoc]

end ReductionOpIntAdd

/-- C5: within a generation arrivals commute.  `fold` is associative and
commutative, and for arrival values `ws` that are a permutation of `vs`,
folding with `fold` and applying the result to the initial value with `apply`
gives the same published value (`int` arithmetic modulo `2^32`). -/
theorem arrivals_commute (EXCL : Bool) (initial : LHS) (vs ws : List RHS)
    (h : vs.Perm ws) :
    apply EXCL initial (vs.foldl (fold EXCL) identity) =
        apply EXCL initial (ws.foldl (fold EXCL) identity) ∧
      (∀ a b c : RHS, fold EXCL (fold EXCL a b) c = fold EXCL a (fold EXCL b c)) ∧
      (∀ a b : RHS, fold EXCL a b = fold EXCL b a) := by
  refine ⟨?_, fold_assoc EXCL, fold_comm EXCL⟩
  congr 1
  apply List.Perm.foldl_eq' h
  intro x _ y _ z
  rw [fold_assoc, fold_comm EXCL x y, ← fold_assoc]

/-- C5 on the arrival values 3, `2^31 - 1`, -7 and a rearrangement of them. -/
theorem arrivals_commute_witness :
    [CInt.ofInt 3, CInt.ofInt 2147483647, CInt.ofInt (-7)].Perm
        [CInt.ofInt (-7), CInt.ofInt 3, CInt.ofInt 2147483647] ∧
      apply true BARRIER_INITIAL_VALUE
          ([CInt.ofInt 3, CInt.ofInt 2147483647, CInt.ofInt (-7)].foldl (fold true) identity) =
        apply true BARRIER_INITIAL_VALUE
          ([CInt.ofInt (-7), CInt.ofInt 3, CInt.ofInt 2147483647].foldl (fold true) identity) :=
  ⟨by decide,
    (arrivals_commute true BARRIER_INITIAL_VALUE
      [CInt.ofInt 3, CInt.ofInt 2147483647, CInt.ofInt (-7)]
      [CInt.ofInt (-7), CInt.ofInt 3, CInt.ofInt 2147483647] (by decide)).1⟩

/-- C10: fold/apply consistency.  Applying to `lhs` the value obtained by
folding `vs` from `identity` equals applying the elements of `vs` to `lhs` one
after another; `identity` is neutral for `apply` and `fold`; and
`apply(apply(lhs, a), b) = apply(lhs, fold(a, b))` (`int` arithmetic modulo `2^32`). -/
theorem fold_apply_consistent (EXCL : Bool) (lhs : LHS) (vs : List RHS) :
    apply EXCL lhs (vs.foldl (fold EXCL) identity) = vs.foldl (apply EXCL) lhs ∧
      apply EXCL lhs identity = lhs ∧
      (∀ r : RHS, fold EXCL r identity = r) ∧
      (∀ a b : RHS, apply EXCL (apply EXCL lhs a) b = apply EXCL lhs (fold EXCL a b)) := by
  refine ⟨?_, apply_identity EXCL lhs, fold_identity EXCL, apply_apply EXCL lhs⟩
  rw [apply_foldl_fold, apply_identity]

end Reduction

/-! ## The driver -/

theorem forRange_succ {σ : Type} (n : Nat) (body : Nat → σ → σ) (s : σ) :
    forRange (n + 1) body s = body n (forRange n body s) := by
  simp [forRange, List.range_succ, List.foldl_append]

theorem forRange_zero {σ : Type} (body : Nat → σ → σ) (s : σ) : forRange 0 body s = s := rfl

theorem mismatches_append (a b : List (CInt × CInt)) :
    mismatches (a ++ b) = mismatches a + mismatches b := by
  simp [mismatches]

theorem mismatches_pos (cs : List (CInt × CInt)) :
    0 < mismatches cs ↔ ∃ c ∈ cs, c.1 ≠ c.2 := by
  unfold mismatches
  rw [List.length_pos_iff_exists_mem]
  simp [List.mem_filter]

theorem received_append (G : Nat) (a b : List (Nat × Nat × CInt)) :
    received G (a ++ b) = received G a + received G b := by
  simp [received]

theorem received_sublist (G : Nat) (sub all : List (Nat × Nat × CInt)) (h : sub.Sublist all) :
    received G sub ≤ received G all := by
  induction h with
  | slnil => exact le_refl _
  | @cons l₁ l₂ a _ ih =>
    have e : received G (a :: l₂) = received G [a] + received G l₂ := received_append G [a] l₂
    rw [e]; omega
  | @cons₂ l₁ l₂ a _ ih =>
    have e1 : received G (a :: l₁) = received G [a] + received G l₁ := received_append G [a] l₁
    have e2 : received G (a :: l₂) = received G [a] + received G l₂ := received_append G [a] l₂
    rw [e1, e2]; omega

theorem received_generations (G g : Nat) (v : Nat → CInt) :
    ∀ n, received G ((List.range n).map (fun k => (g + k, 1, v k))) =
      if g ≤ G ∧ G < g + n then 1 else 0 := by
  intro n
  induction n with
  | zero =>
    have : ¬ (g ≤ G ∧ G < g) := by omega
    simp [received, this]
  | succ n ih =>
    rw [List.range_succ, List.map_append, received_append, ih]
    by_cases h : g + n = G
    · have h1 : ¬ (g ≤ G ∧ G < g + n) := by omega
      have h2 : g ≤ G ∧ G < g + (n + 1) := by omega
      simp [received, h, h1, h2]
    · by_cases h1 : g ≤ G ∧ G < g + n
      · have h2 : g ≤ G ∧ G < g + (n + 1) := by omega
        simp [received, h, h1, h2]
      · have h2 : ¬ (g ≤ G ∧ G < g + (n + 1)) := by omega
        simp [received, h, h1, h2]

/-- The effect of one iteration of the loop of `child_task`. -/
theorem child_body_spec (rt : BarrierRuntime) (SL : Bool) (args : ChildTaskArgs) (i : Nat)
    (s : Task) :
    (child_body rt SL args i s).b = ⟨s.b.id, s.b.gen + 1⟩ ∧
    arrivals (child_body rt SL args i s).trace =
      arrivals s.trace ++ [(s.b.gen, 1, reduce_val i args.index)] ∧
    compared (child_body rt SL args i s).trace =
      compared s.trace ++ (if i = args.index then [s.b.gen] else []) ∧
    comparisons (child_body rt SL args i s).trace =
      comparisons s.trace ++
        (if i = args.index then [(rt.result s.b.gen, child_exp_result i args.num_iters)]
         else []) ∧
    (child_body rt SL args i s).errors =
      s.errors + (mismatches (if i = args.index
        then [(rt.result s.b.gen, child_exp_result i args.num_iters)] else []) : Nat) := by
  unfold child_body
  by_cases hi : i = args.index
  · subst hi
    cases SL <;> by_cases hr : rt.ready s.b.gen <;>
      by_cases hm : rt.result s.b.gen = child_exp_result args.index args.num_iters <;>
      simp [hr, hm, check_result, fetch_result, Barrier.advance_barrier, arrivals, compared,
        comparisons, mismatches]
  · cases SL <;>
      simp [hi, Barrier.advance_barrier, arrivals, compared, comparisons, mismatches]

/-- The effect of one iteration of the result loop of `top_level_task`. -/
theorem parent_body_spec (rt : BarrierRuntime) (size i : Nat) (s : Task) :
    (parent_body rt size i s).b = ⟨s.b.id, s.b.gen + 1⟩ ∧
    arrivals (parent_body rt size i s).trace = arrivals s.trace ∧
    compared (parent_body rt size i s).trace = compared s.trace ++ [s.b.gen] ∧
    comparisons (parent_body rt size i s).trace =
      comparisons s.trace ++ [(rt.result s.b.gen, parent_exp_result i size)] ∧
    (parent_body rt size i s).errors =
      s.errors + (mismatches [(rt.result s.b.gen, parent_exp_result i size)] : Nat) := by
  unfold parent_body
  by_cases hr : rt.ready s.b.gen <;>
    by_cases hm : rt.result s.b.gen = parent_exp_result i size <;>
    simp [hr, hm, check_result, fetch_result, Barrier.advance_barrier, arrivals, compared,
      comparisons, mismatches]

theorem child_loop_spec (rt : BarrierRuntime) (SL : Bool) (args : ChildTaskArgs) (e : Int) :
    ∀ m,
      (forRange m (child_body rt SL args) ⟨args.b, e, []⟩).b = ⟨args.b.id, args.b.gen + m⟩ ∧
      arrivals (forRange m (child_body rt SL args) ⟨args.b, e, []⟩).trace =
        (List.range m).map (fun k => (args.b.gen + k, 1, reduce_val k args.index)) ∧
      compared (forRange m (child_body rt SL args) ⟨args.b, e, []⟩).trace =
        (if args.index < m then [args.b.gen + args.index] else []) ∧
      (forRange m (child_body rt SL args) ⟨args.b, e, []⟩).errors =
        e + (mismatches
          (comparisons (forRange m (child_body rt SL args) ⟨args.b, e, []⟩).trace) : Nat) := by
  intro m
  induction m with
  | zero => simp [forRange_zero, arrivals, compared, comparisons, mismatches]
  | succ m ih =>
    obtain ⟨h1, h2, h3, h4⟩ := ih
    obtain ⟨k1, k2, k3, k4, k5⟩ := child_body_spec rt SL args m
      (forRange m (child_body rt SL args) ⟨args.b, e, []⟩)
    rw [forRange_succ]
    refine ⟨?_, ?_, ?_, ?_⟩
    · rw [k1, h1]; rfl
    · rw [k2, h2, h1, List.range_succ, List.map_append, List.map_singleton]
    · rw [k3, h3, h1]
      by_cases hm : m = args.index
      · have : ¬ args.index < m := by omega
        have : args.index < m + 1 := by omega
        simp [*]
      · by_cases hlt : args.index < m
        · have : args.index < m + 1 := by omega
          simp [*]
        · have : ¬ args.index < m + 1 := by omega
          simp [*]
    · rw [k5, k4, h4, mismatches_append]
      push_cast
      ring

theorem parent_loop_spec (rt : BarrierRuntime) (size : Nat) (b : Barrier) (e : Int) :
    ∀ m,
      (forRange m (parent_body rt size) ⟨b, e, []⟩).b = ⟨b.id, b.gen + m⟩ ∧
      arrivals (forRange m (parent_body rt size) ⟨b, e, []⟩).trace = [] ∧
      compared (forRange m (parent_body rt size) ⟨b, e, []⟩).trace =
        (List.range m).map (fun k => b.gen + k) ∧
      (forRange m (parent_body rt size) ⟨b, e, []⟩).errors =
        e + (mismatches
          (comparisons (forRange m (parent_body rt size) ⟨b, e, []⟩).trace) : Nat) := by
  intro m
  induction m with
  | zero => simp [forRange_zero, arrivals, compared, comparisons, mismatches]
  | succ m ih =>
    obtain ⟨h1, h2, h3, h4⟩ := ih
    obtain ⟨k1, k2, k3, k4, k5⟩ := parent_body_spec rt size m
      (forRange m (parent_body rt size) ⟨b, e, []⟩)
    rw [forRange_succ]
    refine ⟨?_, ?_, ?_, ?_⟩
    · rw [k1, h1]; rfl
    · rw [k2, h2]
    · rw [k3, h3, h1, List.range_succ, List.map_append, List.map_singleton]
    · rw [k5, k4, h4, mismatches_append]
      push_cast
      ring

theorem child_task_spec (rt : BarrierRuntime) (SL : Bool) (size index : Nat) (b : Barrier)
    (e : Int) (h : index < size) :
    arrivals (child_task rt SL ⟨size, index, b⟩ e).trace =
        (List.range size).map (fun k => (b.gen + k, 1, reduce_val k index)) ∧
      compared (child_task rt SL ⟨size, index, b⟩ e).trace = [b.gen + index] ∧
      (child_task rt SL ⟨size, index, b⟩ e).errors =
        e + (mismatches (comparisons (child_task rt SL ⟨size, index, b⟩ e).trace) : Nat) := by
  obtain ⟨_, c2, c3, c4⟩ := child_loop_spec rt SL ⟨size, index, b⟩ e size
  simp only [if_pos h] at c3
  exact ⟨c2, c3, c4⟩

theorem spawn_loop_spec (rtc : Nat → BarrierRuntime) (SL : Bool) (size : Nat) (b : Barrier) :
    ∀ m, m ≤ size →
      (forRange m (spawn_body rtc SL size b) ⟨0, []⟩).children.map (fun c => arrivals c.trace) =
        (List.range m).map
          (fun c => (List.range size).map (fun k => (b.gen + k, 1, reduce_val k c))) ∧
      (forRange m (spawn_body rtc SL size b) ⟨0, []⟩).children.map (fun c => compared c.trace) =
        (List.range m).map (fun c => [b.gen + c]) ∧
      (forRange m (spawn_body rtc SL size b) ⟨0, []⟩).errors =
        (mismatches ((forRange m (spawn_body rtc SL size b) ⟨0, []⟩).children.flatMap
          (fun c => comparisons c.trace)) : Nat) := by
  intro m
  induction m with
  | zero => intro _; simp [forRange_zero, mismatches]
  | succ m ih =>
    intro hm
    obtain ⟨h1, h2, h3⟩ := ih (by omega)
    rw [forRange_succ]
    obtain ⟨c2, c3, c4⟩ := child_task_spec (rtc m) SL size m b
      (forRange m (spawn_body rtc SL size b) ⟨0, []⟩).errors (by omega)
    have hb : spawn_body rtc SL size b m (forRange m (spawn_body rtc SL size b) ⟨0, []⟩) =
        ⟨(child_task (rtc m) SL ⟨size, m, b⟩
            (forRange m (spawn_body rtc SL size b) ⟨0, []⟩).errors).errors,
          (forRange m (spawn_body rtc SL size b) ⟨0, []⟩).children ++
            [child_task (rtc m) SL ⟨size, m, b⟩
              (forRange m (spawn_body rtc SL size b) ⟨0, []⟩).errors]⟩ := rfl
    rw [hb]
    refine ⟨?_, ?_, ?_⟩
    · simp only [List.map_append, List.map_singleton, h1, List.range_succ, c2]
    · simp only [List.map_append, List.map_singleton, h2, List.range_succ, c3]
    · simp only [List.flatMap_append, List.flatMap_singleton, mismatches_append]
      rw [c4, h3]
      push_cast
      ring

/-- The `get_result` and `wait` calls and the expected value of one iteration
of the loop of `child_task`. -/
theorem child_body_reads (rt : BarrierRuntime) (SL : Bool) (args : ChildTaskArgs) (i : Nat)
    (s : Task) :
    fetched (child_body rt SL args i s).trace =
      fetched s.trace ++ (if i = args.index then fetchGens rt s.b.gen else []) ∧
    waited (child_body rt SL args i s).trace =
      waited s.trace ++ (if i = args.index then waitGens rt s.b.gen else []) ++
        (if SL then [s.b.gen] else []) ∧
    expected (child_body rt SL args i s).trace =
      expected s.trace ++
        (if i = args.index then [(s.b.gen, child_exp_result i args.num_iters)] else []) := by
  unfold child_body
  by_cases hi : i = args.index
  · subst hi
    cases SL <;> by_cases hr : rt.ready s.b.gen <;>
      simp [hr, check_result, fetch_result, Barrier.advance_barrier, fetched, waited, expected,
        fetchGens, waitGens]
  · cases SL <;>
      simp [hi, Barrier.advance_barrier, fetched, waited, expected]

/-- The `get_result` and `wait` calls and the expected value of one iteration
of the result loop of `top_level_task`. -/
theorem parent_body_reads (rt : BarrierRuntime) (size i : Nat) (s : Task) :
    fetched (parent_body rt size i s).trace = fetched s.trace ++ fetchGens rt s.b.gen ∧
    waited (parent_body rt size i s).trace = waited s.trace ++ waitGens rt s.b.gen ∧
    expected (parent_body rt size i s).trace =
      expected s.trace ++ [(s.b.gen, parent_exp_result i size)] := by
  unfold parent_body
  by_cases hr : rt.ready s.b.gen <;>
    simp [hr, check_result, fetch_result, Barrier.advance_barrier, fetched, waited, expected,
      fetchGens, waitGens]

theorem child_loop_reads (rt : BarrierRuntime) (SL : Bool) (args : ChildTaskArgs) (e : Int) :
    ∀ m,
      fetched (forRange m (child_body rt SL args) ⟨args.b, e, []⟩).trace =
        (if args.index < m then fetchGens rt (args.b.gen + args.index) else []) ∧
      waited (forRange m (child_body rt SL args) ⟨args.b, e, []⟩).trace =
        (List.range m).flatMap (fun i =>
          (if i = args.index then waitGens rt (args.b.gen + i) else []) ++
            (if SL then [args.b.gen + i] else [])) ∧
      expected (forRange m (child_body rt SL args) ⟨args.b, e, []⟩).trace =
        (if args.index < m
          then [(args.b.gen + args.index, child_exp_result args.index args.num_iters)]
          else []) := by
  intro m
  induction m with
  | zero => simp [forRange_zero, fetched, waited, expected]
  | succ m ih =>
    obtain ⟨h1, h2, h3⟩ := ih
    obtain ⟨hb, _, _, _⟩ := child_loop_spec rt SL args e m
    obtain ⟨k1, k2, k3⟩ := child_body_reads rt SL args m
      (forRange m (child_body rt SL args) ⟨args.b, e, []⟩)
    rw [forRange_succ]
    refine ⟨?_, ?_, ?_⟩
    · rw [k1, h1, hb]
      by_cases hm : m = args.index
      · subst hm; simp
      · by_cases hlt : args.index < m
        · have : args.index < m + 1 := by omega
          simp [*]
        · have : ¬ args.index < m + 1 := by omega
          simp [*]
    · rw [k2, h2, hb, List.range_succ, List.flatMap_append, List.flatMap_singleton,
        List.append_assoc]
    · rw [k3, h3, hb]
      by_cases hm : m = args.index
      · subst hm; simp
      · by_cases hlt : args.index < m
        · have : args.index < m + 1 := by omega
          simp [*]
        · have : ¬ args.index < m + 1 := by omega
          simp [*]

theorem parent_loop_reads (rt : BarrierRuntime) (size : Nat) (b : Barrier) (e : Int) :
    ∀ m,
      fetched (forRange m (parent_body rt size) ⟨b, e, []⟩).trace =
        (List.range m).flatMap (fun k => fetchGens rt (b.gen + k)) ∧
      waited (forRange m (parent_body rt size) ⟨b, e, []⟩).trace =
        (List.range m).flatMap (fun k => waitGens rt (b.gen + k)) ∧
      expected (forRange m (parent_body rt size) ⟨b, e, []⟩).trace =
        (List.range m).map (fun k => (b.gen + k, parent_exp_result k size)) := by
  intro m
  induction m with
  | zero => simp [forRange_zero, fetched, waited, expected]
  | succ m ih =>
    obtain ⟨h1, h2, h3⟩ := ih
    obtain ⟨hb, _, _, _⟩ := parent_loop_spec rt size b e m
    obtain ⟨k1, k2, k3⟩ := parent_body_reads rt size m
      (forRange m (parent_body rt size) ⟨b, e, []⟩)
    rw [forRange_succ]
    refine ⟨?_, ?_, ?_⟩
    · rw [k1, h1, hb, List.range_succ, List.flatMap_append, List.flatMap_singleton]
    · rw [k2, h2, hb, List.range_succ, List.flatMap_append, List.flatMap_singleton]
    · rw [k3, h3, hb, List.range_succ, List.map_append, List.map_singleton]

theorem child_task_reads (rt : BarrierRuntime) (SL : Bool) (size index : Nat) (b : Barrier)
    (e : Int) (h : index < size) :
    fetched (child_task rt SL ⟨size, index, b⟩ e).trace = fetchGens rt (b.gen + index) ∧
      waited (child_task rt SL ⟨size, index, b⟩ e).trace =
        (List.range size).flatMap (fun i =>
          (if i = index then waitGens rt (b.gen + i) else []) ++
            (if SL then [b.gen + i] else [])) ∧
      expected (child_task rt SL ⟨size, index, b⟩ e).trace =
        [(b.gen + index, child_exp_result index size)] := by
  obtain ⟨c1, c2, c3⟩ := child_loop_reads rt SL ⟨size, index, b⟩ e size
  simp only [if_pos h] at c1 c3
  exact ⟨c1, c2, c3⟩

theorem spawn_loop_reads (rtc : Nat → BarrierRuntime) (SL : Bool) (size : Nat) (b : Barrier) :
    ∀ m, m ≤ size →
      (forRange m (spawn_body rtc SL size b) ⟨0, []⟩).children.map (fun c => fetched c.trace) =
        (List.range m).map (fun c => fetchGens (rtc c) (b.gen + c)) ∧
      (forRange m (spawn_body rtc SL size b) ⟨0, []⟩).children.map (fun c => waited c.trace) =
        (List.range m).map (fun c => (List.range size).flatMap (fun i =>
          (if i = c then waitGens (rtc c) (b.gen + i) else []) ++
            (if SL then [b.gen + i] else []))) ∧
      (forRange m (spawn_body rtc SL size b) ⟨0, []⟩).children.map (fun c => expected c.trace) =
        (List.range m).map (fun c => [(b.gen + c, child_exp_result c size)]) := by
  intro m
  induction m with
  | zero => intro _; simp [forRange_zero]
  | succ m ih =>
    intro hm
    obtain ⟨h1, h2, h3⟩ := ih (by omega)
    rw [forRange_succ]
    obtain ⟨c1, c2, c3⟩ := child_task_reads (rtc m) SL size m b
      (forRange m (spawn_body rtc SL size b) ⟨0, []⟩).errors (by omega)
    have hb : spawn_body rtc SL size b m (forRange m (spawn_body rtc SL size b) ⟨0, []⟩) =
        ⟨(child_task (rtc m) SL ⟨size, m, b⟩
            (forRange m (spawn_body rtc SL size b) ⟨0, []⟩).errors).errors,
          (forRange m (spawn_body rtc SL size b) ⟨0, []⟩).children ++
            [child_task (rtc m) SL ⟨size, m, b⟩
              (forRange m (spawn_body rtc SL size b) ⟨0, []⟩).errors]⟩ := rfl
    rw [hb]
    refine ⟨?_, ?_, ?_⟩
    · simp only [List.map_append, List.map_singleton, h1, List.range_succ, c1]
    · simp only [List.map_append, List.map_singleton, h2, List.range_succ, c2]
    · simp only [List.map_append, List.map_singleton, h3, List.range_succ, c3]

theorem top_level_task_errors (rt : BarrierRuntime) (rtc : Nat → BarrierRuntime) (SL : Bool)
    (size : Nat) (b : Barrier) :
    (top_level_task rt rtc SL size b).parent.errors =
      (mismatches (top_level_task rt rtc SL size b).comparisons : Nat) := by
  obtain ⟨_, _, h3⟩ := spawn_loop_spec rtc SL size b size (le_refl _)
  obtain ⟨_, _, _, p4⟩ := parent_loop_spec rt size b
    (forRange size (spawn_body rtc SL size b) ⟨0, []⟩).errors size
  unfold Run.comparisons
  rw [mismatches_append]
  simp only [top_level_task]
  rw [p4, h3]
  push_cast
  rfl

/-- C6: exit codes of the driver.  The counter `errors` ends as the number of
comparisons (of the children and of the parent) that found
`result != exp_result`; `top_level_task` calls `exit(1)` exactly when there is
such a comparison, and when there is none it requests the shutdown of the
runtime instead (exit code 0). -/
theorem driver_exit_code (rt : BarrierRuntime) (rtc : Nat → BarrierRuntime)
    (SHARED_LOWLEVEL : Bool) (size : Nat) (b : Barrier) :
    (top_level_task rt rtc SHARED_LOWLEVEL size b).parent.errors =
        (mismatches (top_level_task rt rtc SHARED_LOWLEVEL size b).comparisons : Nat) ∧
      ((top_level_task rt rtc SHARED_LOWLEVEL size b).finish = Finish.exit 1 ↔
        ∃ c ∈ (top_level_task rt rtc SHARED_LOWLEVEL size b).comparisons, c.1 ≠ c.2) ∧
      ((top_level_task rt rtc SHARED_LOWLEVEL size b).finish.exit_code = 1 ↔
        ∃ c ∈ (top_level_task rt rtc SHARED_LOWLEVEL size b).comparisons, c.1 ≠ c.2) ∧
      ((∀ c ∈ (top_level_task rt rtc SHARED_LOWLEVEL size b).comparisons, c.1 = c.2) →
        (top_level_task rt rtc SHARED_LOWLEVEL size b).finish = Finish.shutdown ∧
        (top_level_task rt rtc SHARED_LOWLEVEL size b).finish.exit_code = 0) := by
  have herr := top_level_task_errors rt rtc SHARED_LOWLEVEL size b
  have hfin : (top_level_task rt rtc SHARED_LOWLEVEL size b).finish =
      final_check (top_level_task rt rtc SHARED_LOWLEVEL size b).parent.errors := rfl
  have hpos := mismatches_pos (top_level_task rt rtc SHARED_LOWLEVEL size b).comparisons
  rw [hfin, herr]
  generalize (top_level_task rt rtc SHARED_LOWLEVEL size b).comparisons = cs at hpos ⊢
  refine ⟨rfl, ?_, ?_, ?_⟩
  · rw [← hpos]
    unfold final_check
    by_cases h : 0 < mismatches cs
    · have : ((mismatches cs : Nat) : Int) > 0 := by exact_mod_cast h
      simp [this, h]
    · have : ¬ ((mismatches cs : Nat) : Int) > 0 := by omega
      simp [this, h]
  · rw [← hpos]
    unfold final_check
    by_cases h : 0 < mismatches cs
    · have : ((mismatches cs : Nat) : Int) > 0 := by exact_mod_cast h
      simp [this, h, Finish.exit_code]
    · have : ¬ ((mismatches cs : Nat) : Int) > 0 := by omega
      simp [this, h, Finish.exit_code]
  · intro hall
    have h : ¬ 0 < mismatches cs := by
      rw [hpos]
      rintro ⟨c, hc, hne⟩
      exact hne (hall c hc)
    have : ¬ ((mismatches cs : Nat) : Int) > 0 := by omega
    unfold final_check
    simp [this, Finish.exit_code]

/-- C6 on two runs on 3 CPUs: one where every result is the expected one, and
one where the parent gets the results expected on 2 CPUs. -/
theorem driver_exit_code_witness :
    ((∀ c ∈ (top_level_task (sampleRuntime 3) (fun _ => sampleRuntime 3) false 3
        ⟨7, 0⟩).comparisons, c.1 = c.2) ∧
      (top_level_task (sampleRuntime 3) (fun _ => sampleRuntime 3) false 3 ⟨7, 0⟩).finish =
        Finish.shutdown ∧
      (top_level_task (sampleRuntime 3) (fun _ => sampleRuntime 3) false 3
        ⟨7, 0⟩).finish.exit_code = 0) ∧
    ((∃ c ∈ (top_level_task (sampleRuntime 2) (fun _ => sampleRuntime 3) false 3
        ⟨7, 0⟩).comparisons, c.1 ≠ c.2) ∧
      (top_level_task (sampleRuntime 2) (fun _ => sampleRuntime 3) false 3 ⟨7, 0⟩).finish =
        Finish.exit 1) :=
  ⟨⟨by decide,
      (driver_exit_code (sampleRuntime 3) (fun _ => sampleRuntime 3) false 3 ⟨7, 0⟩).2.2.2
        (by decide)⟩,
    ⟨by decide,
      (driver_exit_code (sampleRuntime 2) (fun _ => sampleRuntime 3) false 3 ⟨7, 0⟩).2.1.2
        (by decide)⟩⟩

theorem received_children (G g size : Nat) (v : Nat → Nat → CInt) :
    ∀ m, received G (((List.range m).map
        (fun c => (List.range size).map (fun k => (g + k, 1, v c k)))).flatten) =
      m * (if g ≤ G ∧ G < g + size then 1 else 0) := by
  intro m
  induction m with
  | zero => simp [received]
  | succ m ih =>
    rw [List.range_succ, List.map_append, List.flatten_append, received_append, ih,
      List.map_singleton, List.flatten_singleton, received_generations]
    ring

theorem arrival_values_append (G : Nat) (a b : List (Nat × Nat × CInt)) :
    arrival_values G (a ++ b) = arrival_values G a ++ arrival_values G b := by
  simp [arrival_values]

theorem arrival_values_generations (g k : Nat) (v : Nat → CInt) :
    ∀ n, arrival_values (g + k) ((List.range n).map (fun j => (g + j, 1, v j))) =
      if k < n then [v k] else [] := by
  intro n
  induction n with
  | zero => simp [arrival_values]
  | succ n ih =>
    rw [List.range_succ, List.map_append, arrival_values_append, ih]
    by_cases h : n = k
    · subst h
      simp [arrival_values]
    · by_cases h1 : k < n
      · have h2 : k < n + 1 := by omega
        simp [arrival_values, h, h1, h2]
      · have h2 : ¬ k < n + 1 := by omega
        simp [arrival_values, h, h1, h2]

theorem arrival_values_children (g k size : Nat) (hk : k < size) (v : Nat → Nat → CInt) :
    ∀ m, arrival_values (g + k) (((List.range m).map
        (fun c => (List.range size).map (fun j => (g + j, 1, v c j)))).flatten) =
      (List.range m).map (fun c => v c k) := by
  intro m
  induction m with
  | zero => simp [arrival_values]
  | succ m ih =>
    rw [List.range_succ, List.map_append, List.flatten_append, arrival_values_append, ih,
      List.map_singleton, List.flatten_singleton, arrival_values_generations, if_pos hk,
      List.map_append, List.map_singleton]

theorem top_level_task_arrivals (rt : BarrierRuntime) (rtc : Nat → BarrierRuntime) (SL : Bool)
    (size : Nat) (b : Barrier) :
    (top_level_task rt rtc SL size b).arrivals =
      ((List.range size).map
        (fun c => (List.range size).map (fun k => (b.gen + k, 1, reduce_val k c)))).flatten := by
  obtain ⟨h1, _, _⟩ := spawn_loop_spec rtc SL size b size (le_refl _)
  obtain ⟨_, p2, _, _⟩ := parent_loop_spec rt size b
    (forRange size (spawn_body rtc SL size b) ⟨0, []⟩).errors size
  unfold Run.arrivals
  simp only [top_level_task]
  rw [p2, List.append_nil, List.flatMap_def, h1]

/-- C7: arrival accounting of the driver on `N >= 1` CPUs, from a barrier at
generation `g` with `expected_arrivals = N`.  Every child contributes exactly
one arrival, of count 1 (child `c` with the value `reduce_val k c` in
iteration `k`), to each of the generations `g, ..., g+N-1` and no other
arrival; each of these generations receives `N` arrivals in all, no other
generation receives any, and whatever part of the arrivals has taken place
the count a generation has received does not exceed `N`.  The parent calls
`get_result` on the generations `g, ..., g+N-1` in this order (a second time
after a `wait` on the same generation when the result was not ready) and
compares the results of `g, ..., g+N-1` in strictly increasing order.  Child
`c` calls `get_result` on generation `g + c` only (again a second time after a
`wait` when the result was not ready) and compares exactly one result, that of
generation `g + c`; apart from that it waits only where `SHARED_LOWLEVEL`
makes it wait after every arrival. -/
theorem driver_arrival_accounting (rt : BarrierRuntime) (rtc : Nat → BarrierRuntime)
    (SHARED_LOWLEVEL : Bool) (N : Nat) (b : Barrier) (hN : 1 ≤ N) :
    (top_level_task rt rtc SHARED_LOWLEVEL N b).children.map (fun c => arrivals c.trace) =
        (List.range N).map
          (fun c => (List.range N).map (fun k => (b.gen + k, 1, reduce_val k c))) ∧
      (∀ G, received G (top_level_task rt rtc SHARED_LOWLEVEL N b).arrivals =
        if b.gen ≤ G ∧ G < b.gen + N then N else 0) ∧
      (∀ sub, sub.Sublist (top_level_task rt rtc SHARED_LOWLEVEL N b).arrivals →
        ∀ G, received G sub ≤ N) ∧
      compared (top_level_task rt rtc SHARED_LOWLEVEL N b).parent.trace =
        (List.range N).map (fun k => b.gen + k) ∧
      (compared (top_level_task rt rtc SHARED_LOWLEVEL N b).parent.trace).Pairwise
        (fun x y => x < y) ∧
      (top_level_task rt rtc SHARED_LOWLEVEL N b).children.map (fun c => compared c.trace) =
        (List.range N).map (fun c => [b.gen + c]) ∧
      fetched (top_level_task rt rtc SHARED_LOWLEVEL N b).parent.trace =
        (List.range N).flatMap
          (fun k => if rt.ready (b.gen + k) then [b.gen + k] else [b.gen + k, b.gen + k]) ∧
      waited (top_level_task rt rtc SHARED_LOWLEVEL N b).parent.trace =
        (List.range N).flatMap (fun k => if rt.ready (b.gen + k) then [] else [b.gen + k]) ∧
      (top_level_task rt rtc SHARED_LOWLEVEL N b).children.map (fun c => fetched c.trace) =
        (List.range N).map
          (fun c => if (rtc c).ready (b.gen + c) then [b.gen + c] else [b.gen + c, b.gen + c]) ∧
      (top_level_task rt rtc SHARED_LOWLEVEL N b).children.map (fun c => waited c.trace) =
        (List.range N).map (fun c => (List.range N).flatMap (fun i =>
          (if i = c then (if (rtc c).ready (b.gen + i) then [] else [b.gen + i]) else []) ++
            (if SHARED_LOWLEVEL then [b.gen + i] else []))) := by
  obtain ⟨h1, h2, _⟩ := spawn_loop_spec rtc SHARED_LOWLEVEL N b N (le_refl _)
  obtain ⟨r1, r2, _⟩ := spawn_loop_reads rtc SHARED_LOWLEVEL N b N (le_refl _)
  obtain ⟨_, _, p3, _⟩ := parent_loop_spec rt N b
    (forRange N (spawn_body rtc SHARED_LOWLEVEL N b) ⟨0, []⟩).errors N
  obtain ⟨q1, q2, _⟩ := parent_loop_reads rt N b
    (forRange N (spawn_body rtc SHARED_LOWLEVEL N b) ⟨0, []⟩).errors N
  have harr := top_level_task_arrivals rt rtc SHARED_LOWLEVEL N b
  have hrec : ∀ G, received G (top_level_task rt rtc SHARED_LOWLEVEL N b).arrivals =
      if b.gen ≤ G ∧ G < b.gen + N then N else 0 := by
    intro G
    rw [harr, received_children]
    split <;> simp
  have hcmp : compared (top_level_task rt rtc SHARED_LOWLEVEL N b).parent.trace =
      (List.range N).map (fun k => b.gen + k) := p3
  refine ⟨h1, hrec, ?_, hcmp, ?_, h2, q1, q2, r1, r2⟩
  · intro sub hsub G
    have := received_sublist G sub _ hsub
    rw [hrec G] at this
    split at this <;> omega
  · rw [hcmp, List.pairwise_map]
    exact List.Pairwise.imp (fun h => Nat.add_lt_add_left h _) (List.pairwise_lt_range N)

/-- C7 on 3 CPUs from generation 5, the parent finding no result ready. -/
theorem driver_arrival_accounting_witness :
    1 ≤ 3 ∧
      (top_level_task (slowRuntime 3) (fun _ => sampleRuntime 3) false 3
          ⟨7, 5⟩).children.map (fun c => arrivals c.trace) =
        [[(5, 1, CInt.ofInt 1), (6, 1, CInt.ofInt 2), (7, 1, CInt.ofInt 3)],
          [(5, 1, CInt.ofInt 2), (6, 1, CInt.ofInt 4), (7, 1, CInt.ofInt 6)],
          [(5, 1, CInt.ofInt 3), (6, 1, CInt.ofInt 6), (7, 1, CInt.ofInt 9)]] ∧
      compared (top_level_task (slowRuntime 3) (fun _ => sampleRuntime 3) false 3
          ⟨7, 5⟩).parent.trace = [5, 6, 7] ∧
      (top_level_task (slowRuntime 3) (fun _ => sampleRuntime 3) false 3
          ⟨7, 5⟩).children.map (fun c => compared c.trace) = [[5], [6], [7]] ∧
      fetched (top_level_task (slowRuntime 3) (fun _ => sampleRuntime 3) false 3
          ⟨7, 5⟩).parent.trace = [5, 5, 6, 6, 7, 7] ∧
      waited (top_level_task (slowRuntime 3) (fun _ => sampleRuntime 3) false 3
          ⟨7, 5⟩).parent.trace = [5, 6, 7] ∧
      (top_level_task (slowRuntime 3) (fun _ => sampleRuntime 3) false 3
          ⟨7, 5⟩).children.map (fun c => fetched c.trace) = [[5], [6], [7]] :=
  have h := driver_arrival_accounting (slowRuntime 3) (fun _ => sampleRuntime 3) false 3
    ⟨7, 5⟩ (by decide)
  ⟨by decide, h.1, h.2.2.2.1, h.2.2.2.2.2.1, h.2.2.2.2.2.2.1, h.2.2.2.2.2.2.2.1,
    h.2.2.2.2.2.2.2.2.1⟩

section Scenario

open ReductionOpIntAdd

theorem wrapSize_of_lt (x : Nat) (h : x < 18446744073709551616) : wrapSize x = x :=
  Nat.mod_eq_of_lt h

theorem BARRIER_INITIAL_VALUE_toSize : BARRIER_INITIAL_VALUE.toSize = 42 := by decide

theorem reduce_val_val (i index : Nat) (h : (i + 1) * (index + 1) < 2147483648) :
    (reduce_val i index).val = (((i + 1) * (index + 1) : Nat) : Int) := by
  have h1 : i + 1 ≤ (i + 1) * (index + 1) := Nat.le_mul_of_pos_right _ (Nat.succ_pos _)
  have h2 : index + 1 ≤ (i + 1) * (index + 1) := Nat.le_mul_of_pos_left _ (Nat.succ_pos _)
  unfold reduce_val
  rw [wrapSize_of_lt (i + 1) (by omega), wrapSize_of_lt (index + 1) (by omega),
    wrapSize_of_lt _ (by omega), CInt.val_ofInt]
  exact wrapInt_of_range _ (by omega) (by omega)

theorem sum_reduce_val (i : Nat) :
    ∀ n, (i + 1) * n < 2147483648 →
      2 * ((List.range n).map (fun c => (reduce_val i c).val)).sum =
        (((i + 1) * n * (n + 1) : Nat) : Int) := by
  intro n
  induction n with
  | zero => intro _; simp
  | succ n ih =>
    intro h
    have hle : (i + 1) * n ≤ (i + 1) * (n + 1) := Nat.mul_le_mul_left _ (Nat.le_succ n)
    have ih' := ih (by omega)
    rw [List.range_succ, List.map_append, List.sum_append, List.map_singleton,
      List.sum_singleton, reduce_val_val i n h, Int.mul_add, ih']
    push_cast
    ring

theorem exp_result_val (i n : Nat) (hn : 1 ≤ n)
    (h : 42 + (i + 1) * n * (n + 1) / 2 < 2147483648) :
    (child_exp_result i n).val = ((42 + (i + 1) * n * (n + 1) / 2 : Nat) : Int) := by
  have hP : (i + 1) * n * (n + 1) < 4294967296 := by omega
  have hpos : 0 < (i + 1) * n := Nat.mul_pos (Nat.succ_pos _) hn
  have h1 : (i + 1) * n ≤ (i + 1) * n * (n + 1) := Nat.le_mul_of_pos_right _ (Nat.succ_pos _)
  have h2 : n + 1 ≤ (i + 1) * n * (n + 1) := Nat.le_mul_of_pos_left _ hpos
  have h3 : i + 1 ≤ (i + 1) * n := Nat.le_mul_of_pos_right _ hn
  unfold child_exp_result
  rw [BARRIER_INITIAL_VALUE_toSize, wrapSize_of_lt (i + 1) (by omega),
    wrapSize_of_lt ((i + 1) * n) (by omega), wrapSize_of_lt (n + 1) (by omega),
    wrapSize_of_lt ((i + 1) * n * (n + 1)) (by omega), wrapSize_of_lt _ (by omega),
    CInt.val_ofInt]
  exact wrapInt_of_range _ (by omega) (by omega)

theorem parent_exp_result_eq (i n : Nat) : parent_exp_result i n = child_exp_result i n := rfl

theorem published_reduce_val (EXCL : Bool) (N k : Nat) (hN : 1 ≤ N)
    (hfit : 42 + (k + 1) * N * (N + 1) / 2 < 2147483648) :
    published EXCL BARRIER_INITIAL_VALUE ((List.range N).map (fun c => reduce_val k c)) =
      child_exp_result k N := by
  have hval := exp_result_val k N hN hfit
  have h2 : (k + 1) * N * 2 ≤ (k + 1) * N * (N + 1) := Nat.mul_le_mul_left _ (by omega)
  have hsum := sum_reduce_val k N (by omega)
  apply Subtype.ext
  rw [hval]
  show wrapInt (BARRIER_INITIAL_VALUE.val + (List.foldl (fold EXCL) identity _).val) = _
  rw [foldl_fold_val, List.map_map, wrapInt_add_right]
  have hi : identity.val = 0 := by decide
  have hb : BARRIER_INITIAL_VALUE.val = 42 := by decide
  rw [hi, hb, Int.zero_add]
  have hcomp : ((fun v : CInt => v.val) ∘ fun c => reduce_val k c) =
      fun c => (reduce_val k c).val := rfl
  rw [hcomp]
  have hdiv : (((k + 1) * N * (N + 1) / 2 : Nat) : Int) =
      ((List.range N).map (fun c => (reduce_val k c).val)).sum := by
    push_cast at hsum ⊢
    omega
  rw [wrapInt_of_range]
  · push_cast at hdiv ⊢
    omega
  · push_cast at hdiv
    omega
  · have : ((42 + (k + 1) * N * (N + 1) / 2 : Nat) : Int) < 2147483648 := by
      exact_mod_cast hfit
    push_cast at hdiv this
    omega

/-- C4: the single-node sum-reduction scenario.  For `N >= 1` CPUs and an
iteration `k < N` such that `42 + (k+1)*N*(N+1)/2` fits in an `int` (no
intermediate value overflows): the values arriving at generation `g + k` in a
run of the driver are the `reduce_val` values `(k+1)*(c+1)` of the children
`c = 0..N-1`; folding them with `fold` and applying the result to the initial
value 42 with `apply` gives exactly the value that child `k` compares the
result of generation `g + k` against (its only comparison) and that the parent
compares the result of generation `g + k` against (its comparison number `k`);
that value is `42 + (k+1)*N*(N+1)/2`. -/
theorem sum_reduction_matches_expected (EXCL : Bool) (rt : BarrierRuntime)
    (rtc : Nat → BarrierRuntime) (SHARED_LOWLEVEL : Bool) (b : Barrier) (N k : Nat)
    (hN : 1 ≤ N) (hk : k < N) (hfit : 42 + (k + 1) * N * (N + 1) / 2 < 2147483648) :
    arrival_values (b.gen + k) (top_level_task rt rtc SHARED_LOWLEVEL N b).arrivals =
        (List.range N).map (fun c => reduce_val k c) ∧
      ((top_level_task rt rtc SHARED_LOWLEVEL N b).children.map (fun c => expected c.trace))[k]? =
        some [(b.gen + k, published EXCL BARRIER_INITIAL_VALUE
          (arrival_values (b.gen + k) (top_level_task rt rtc SHARED_LOWLEVEL N b).arrivals))] ∧
      (expected (top_level_task rt rtc SHARED_LOWLEVEL N b).parent.trace)[k]? =
        some (b.gen + k, published EXCL BARRIER_INITIAL_VALUE
          (arrival_values (b.gen + k) (top_level_task rt rtc SHARED_LOWLEVEL N b).arrivals)) ∧
      published EXCL BARRIER_INITIAL_VALUE
          (arrival_values (b.gen + k) (top_level_task rt rtc SHARED_LOWLEVEL N b).arrivals) =
        child_exp_result k N ∧
      published EXCL BARRIER_INITIAL_VALUE
          (arrival_values (b.gen + k) (top_level_task rt rtc SHARED_LOWLEVEL N b).arrivals) =
        parent_exp_result k N ∧
      (published EXCL BARRIER_INITIAL_VALUE
          (arrival_values (b.gen + k) (top_level_task rt rtc SHARED_LOWLEVEL N b).arrivals)).val =
        ((42 + (k + 1) * N * (N + 1) / 2 : Nat) : Int) := by
  have harr : arrival_values (b.gen + k) (top_level_task rt rtc SHARED_LOWLEVEL N b).arrivals =
      (List.range N).map (fun c => reduce_val k c) := by
    rw [top_level_task_arrivals]
    exact arrival_values_children b.gen k N hk (fun c j => reduce_val j c) N
  have hpub := published_reduce_val EXCL N k hN hfit
  obtain ⟨_, _, r3⟩ := spawn_loop_reads rtc SHARED_LOWLEVEL N b N (le_refl _)
  obtain ⟨_, _, q3⟩ := parent_loop_reads rt N b
    (forRange N (spawn_body rtc SHARED_LOWLEVEL N b) ⟨0, []⟩).errors N
  have hchild : ((top_level_task rt rtc SHARED_LOWLEVEL N b).children.map
      (fun c => expected c.trace))[k]? = some [(b.gen + k, child_exp_result k N)] := by
    have : (top_level_task rt rtc SHARED_LOWLEVEL N b).children.map (fun c => expected c.trace) =
        (List.range N).map (fun c => [(b.gen + c, child_exp_result c N)]) := r3
    rw [this, List.getElem?_map, List.getElem?_range hk]
    rfl
  have hparent : (expected (top_level_task rt rtc SHARED_LOWLEVEL N b).parent.trace)[k]? =
      some (b.gen + k, parent_exp_result k N) := by
    have : expected (top_level_task rt rtc SHARED_LOWLEVEL N b).parent.trace =
        (List.range N).map (fun k => (b.gen + k, parent_exp_result k N)) := q3
    rw [this, List.getElem?_map, List.getElem?_range hk]
    rfl
  rw [harr, hpub]
  exact ⟨rfl, hchild, by rw [hparent, parent_exp_result_eq], rfl,
    (parent_exp_result_eq k N).symm, exp_result_val k N hN hfit⟩

/-- C4 for the run of the bundled test on 4 CPUs, iteration 2: the value is 72. -/
theorem sum_reduction_matches_expected_witness :
    (1 ≤ 4 ∧ 2 < 4 ∧ 42 + (2 + 1) * 4 * (4 + 1) / 2 < 2147483648) ∧
      ((top_level_task (sampleRuntime 4) (fun _ => sampleRuntime 4) false 4 ⟨1, 0⟩).children.map
          (fun c => expected c.trace))[2]? =
        some [(0 + 2, published true BARRIER_INITIAL_VALUE
          (arrival_values (0 + 2)
            (top_level_task (sampleRuntime 4) (fun _ => sampleRuntime 4) false 4
              ⟨1, 0⟩).arrivals))] ∧
      (expected (top_level_task (sampleRuntime 4) (fun _ => sampleRuntime 4) false 4
          ⟨1, 0⟩).parent.trace)[2]? =
        some (0 + 2, published true BARRIER_INITIAL_VALUE
          (arrival_values (0 + 2)
            (top_level_task (sampleRuntime 4) (fun _ => sampleRuntime 4) false 4
              ⟨1, 0⟩).arrivals)) ∧
      (published true BARRIER_INITIAL_VALUE
          (arrival_values (0 + 2)
            (top_level_task (sampleRuntime 4) (fun _ => sampleRuntime 4) false 4
              ⟨1, 0⟩).arrivals)).val = 72 :=
  have h := sum_reduction_matches_expected true (sampleRuntime 4) (fun _ => sampleRuntime 4)
    false ⟨1, 0⟩ 4 2 (by decide) (by decide) (by decide)
  ⟨⟨by decide, by decide, by decide⟩, h.2.1, h.2.2.1, h.2.2.2.2.2⟩

end Scenario

end Realm
